import Mathlib

/-!
# Verification of the ofenes WebSocket hub (internal/ws/hub.go, internal/ws/client.go)

This development gives a shallow embedding of the Go hub:

* `Message` mirrors `models.Message` (`internal/models/models.go`); the Go
  `time.Time` timestamp is modelled as a `Nat`.
* `Wire` models a raw byte slice (`[]byte`) as the hub observes it through
  `json.Unmarshal`: either bytes that decode to a `Message`, or malformed
  bytes.  `Wire.msg m` also stands for `json.Marshal m` (marshalling a
  `Message` whose fields are strings never fails in Go, so the error branch
  of `json.Marshal` is dead code at those call sites).
* `Client` mirrors `ws.Client`; the `id` field models Go pointer identity
  of the `*Client`.  `Mailbox` models the client's buffered `Send` channel:
  a non-blocking send (`select { case ch <- v: default: }`) succeeds exactly
  when the buffer is below capacity.  `ServeWs` creates the channel with
  capacity 256.
* `HubState.clients` models the Go map `clients map[*Client]bool` as a list
  in the map's current (unspecified) iteration order; map insertion is
  modelled by insertion at an arbitrary position (`Event.register` carries
  the position), so theorems quantifying over positions cover every
  iteration order Go's randomized maps can produce.
* `Effect` records the hub's observable actions in program order: a
  successful channel send, a `close` of a `Send` channel, and a `log.Printf`
  call (log text is abbreviated to the fixed prefix of the Go format
  string; the formatted arguments are not modelled).
* Parsing an embedded JSON `target` field out of the `webrtc` payload
  string (`json.Unmarshal([]byte(msg.Payload), &payload)` into
  `struct{ Target string }`) is library behaviour, kept abstract as a
  parameter `parseTarget : String → Option String`: `none` is an unmarshal
  error, `some t` is success with the decoded `Target` (which is `""` when
  the field is absent or blank).
-/

namespace Ofenes

/-- `models.Message` from `internal/models/models.go`. -/
structure Message where
  type : String
  sender : String
  payload : String
  timestamp : Nat
deriving DecidableEq, Repr

/-- `models.MsgTypeChat`. -/
def MsgTypeChat : String := "chat"
/-- `models.MsgTypeSystem`. -/
def MsgTypeSystem : String := "system"
/-- `models.MsgTypeVideoSync`. -/
def MsgTypeVideoSync : String := "video_sync"
/-- `models.MsgTypeWebRTC`. -/
def MsgTypeWebRTC : String := "webrtc"
/-- `models.MsgTypeUserList`. -/
def MsgTypeUserList : String := "user_list"
/-- `models.MsgTypeAdmin`. -/
def MsgTypeAdmin : String := "admin"

/-- A raw byte slice as the hub can observe it through `json.Unmarshal`:
either bytes that decode to the envelope `m`, or malformed bytes (the `tag`
distinguishes different malformed inputs). -/
inductive Wire where
  | msg (m : Message)
  | malformed (tag : Nat)
deriving DecidableEq, Repr

/-- `json.Unmarshal(raw, &msg)` in `Hub.routeMessage`. -/
def decodeEnvelope : Wire → Option Message
  | .msg m => some m
  | .malformed _ => none

/-- `ws.Client` from `internal/ws/client.go`; `id` models the pointer
identity of the `*Client`. -/
structure Client where
  id : Nat
  UserID : String
  Username : String
deriving DecidableEq, Repr

/-- The client's buffered `Send` channel, from the hub's side: the queued
messages (oldest first) and the channel capacity. -/
structure Mailbox where
  queue : List Wire
  capacity : Nat
deriving DecidableEq, Repr

/-- A non-blocking send on the channel fails exactly when the buffer is at
capacity. -/
def Mailbox.full (mb : Mailbox) : Bool := decide (mb.capacity ≤ mb.queue.length)

/-- A successful channel send appends to the buffer. -/
def Mailbox.enqueue (mb : Mailbox) (w : Wire) : Mailbox :=
  { mb with queue := mb.queue ++ [w] }

/-- `Send: make(chan []byte, 256)` in `ServeWs`. -/
def freshMailbox : Mailbox := { queue := [], capacity := 256 }

/-- The hub's mutable state: the `clients` map (as a list in the map's
current iteration order, each client paired with its `Send` mailbox) and
`lastVideoState`. -/
structure HubState where
  clients : List (Client × Mailbox)
  lastVideoState : Option Wire
deriving DecidableEq, Repr

/-- The pointer identities present in a registry list. -/
def keysOf (cs : List (Client × Mailbox)) : List Nat := cs.map fun cm => cm.1.id

/-- `NewHub()`: empty clients map, nil `lastVideoState`. -/
def initialHub : HubState := { clients := [], lastVideoState := none }

/-- Observable actions of the hub, in program order. -/
inductive Effect where
  | send (cid : Nat) (w : Wire)
  | closeMailbox (cid : Nat)
  | log (s : String)
deriving DecidableEq, Repr

/-- The loop body of `Hub.broadcastToAll`, iterating the registry in map
order: non-blocking send to each client; on a full mailbox, `close` the
channel and `delete` the client from the map. -/
def broadcastList (w : Wire) : List (Client × Mailbox) → List (Client × Mailbox) × List Effect
  | [] => ([], [])
  | cm :: rest =>
    let r := broadcastList w rest
    if cm.2.full then (r.1, Effect.closeMailbox cm.1.id :: r.2)
    else ((cm.1, cm.2.enqueue w) :: r.1, Effect.send cm.1.id w :: r.2)

/-- `Hub.broadcastToAll`. -/
def broadcastToAll (s : HubState) (w : Wire) : HubState × List Effect :=
  let r := broadcastList w s.clients
  ({ s with clients := r.1 }, r.2)

/-- The loop body of `Hub.sendToUser`: scan the registry in map order for
the first client whose `Username` matches; non-blocking send to it (on a
full mailbox, close and delete it) and `return`; if no client matches, log
"target user not found". -/
def sendToUserList (u : String) (w : Wire) : List (Client × Mailbox) → List (Client × Mailbox) × List Effect
  | [] => ([], [Effect.log ("ws: target user not found: " ++ u)])
  | cm :: rest =>
    if cm.1.Username = u then
      if cm.2.full then (rest, [Effect.closeMailbox cm.1.id])
      else ((cm.1, cm.2.enqueue w) :: rest, [Effect.send cm.1.id w])
    else
      let r := sendToUserList u w rest
      (cm :: r.1, r.2)

/-- `Hub.sendToUser`. -/
def sendToUser (s : HubState) (u : String) (w : Wire) : HubState × List Effect :=
  let r := sendToUserList u w s.clients
  ({ s with clients := r.1 }, r.2)

/-- `json.Marshal(map[string]string{"event": .., "userId": .., "username": ..})`
in `Hub.broadcastSystemMessage`; Go marshals map keys in sorted order
(event, userId, username).  Models names that need no JSON escaping. -/
def systemPayload (event uid uname : String) : String :=
  "\x7b\"event\":\"" ++ event ++ "\",\"userId\":\"" ++ uid ++
    "\",\"username\":\"" ++ uname ++ "\"\x7d"

/-- The `models.Message` built by `Hub.broadcastSystemMessage`. -/
def systemMessage (event uid uname : String) (now : Nat) : Message :=
  { type := MsgTypeSystem, sender := "system",
    payload := systemPayload event uid uname, timestamp := now }

/-- `Hub.broadcastSystemMessage` (the `json.Marshal(msg)` error branch is
dead code for a string-fielded `Message`). -/
def broadcastSystemMessage (s : HubState) (event uid uname : String) (now : Nat) :
    HubState × List Effect :=
  broadcastToAll s (Wire.msg (systemMessage event uid uname now))

/-- `json.Marshal` of a `[]string`, for names that need no JSON escaping:
`[]` for the empty slice, else comma-separated quoted strings. -/
def marshalStrings (xs : List String) : String :=
  "[" ++ String.intercalate "," (xs.map fun s => "\"" ++ s ++ "\"") ++ "]"

/-- The `user_list` `models.Message` built by `Hub.broadcastUserList` from
the usernames of the current registry, in map iteration order. -/
def userListMessage (cs : List (Client × Mailbox)) (now : Nat) : Message :=
  { type := MsgTypeUserList, sender := "system",
    payload := marshalStrings (cs.map fun cm => cm.1.Username), timestamp := now }

/-- `Hub.broadcastUserList`: collect the usernames from the registry, then
broadcast the marshalled `user_list` message to all. -/
def broadcastUserList (s : HubState) (now : Nat) : HubState × List Effect :=
  broadcastToAll s (Wire.msg (userListMessage s.clients now))

/-- `Hub.routeWebRTCMessage`: parse the payload's `target`; on unmarshal
error or blank target, log and drop; otherwise re-marshal the message and
unicast it via `sendToUser`. -/
def routeWebRTCMessage (parseTarget : String → Option String) (s : HubState) (m : Message) :
    HubState × List Effect :=
  match parseTarget m.payload with
  | none => (s, [Effect.log "ws: webrtc message missing target"])
  | some t =>
    if t = "" then (s, [Effect.log "ws: webrtc message has empty target"])
    else sendToUser s t (Wire.msg m)

/-- `Hub.routeMessage`: decode the raw bytes as an envelope (log and drop on
failure), then dispatch on `msg.Type`. -/
def routeMessage (parseTarget : String → Option String) (s : HubState) (raw : Wire) :
    HubState × List Effect :=
  match decodeEnvelope raw with
  | none => (s, [Effect.log "ws: invalid message format"])
  | some m =>
    if m.type = MsgTypeChat then broadcastToAll s raw
    else if m.type = MsgTypeVideoSync then
      broadcastToAll { s with lastVideoState := some raw } raw
    else if m.type = MsgTypeWebRTC then routeWebRTCMessage parseTarget s m
    else if m.type = MsgTypeAdmin then broadcastToAll s raw
    else
      let r := broadcastToAll s raw
      (r.1, Effect.log ("ws: unknown message type: " ++ m.type) :: r.2)

/-- Map insertion at an arbitrary iteration position (Go map iteration
order is unspecified; a new key may appear anywhere in it). -/
def insertAt : Nat → (Client × Mailbox) → List (Client × Mailbox) → List (Client × Mailbox)
  | _, x, [] => [x]
  | 0, x, l => x :: l
  | n + 1, x, y :: l => y :: insertAt n x l

/-- The non-blocking push of `lastVideoState` to the freshly registered
client in `Hub.Run` (`select { case client.Send <- h.lastVideoState:
default: }`): nothing if there is no cached state; on a full mailbox the
message is silently dropped (plain `default`, no eviction).  If the client
is no longer in the registry its channel has been closed, which in Go
would panic; that state is unreachable from `ServeWs` (a fresh client's
empty 256-slot mailbox is never evicted by the preceding broadcast), and
is modelled as a no-op. -/
def pushVideoState (s : HubState) (c : Client) : HubState × List Effect :=
  match s.lastVideoState with
  | none => (s, [])
  | some v =>
    match s.clients.find? (fun cm => cm.1.id = c.id) with
    | none => (s, [])
    | some cm =>
      if cm.2.full then (s, [])
      else
        ({ s with clients := s.clients.map fun cm' =>
            if cm'.1.id = c.id then (cm'.1, cm'.2.enqueue v) else cm' },
         [Effect.send c.id v])

/-- The `case client := <-h.Register` arm of `Hub.Run`: insert into the map
(assigning an existing key leaves the map unchanged), log, broadcast the
`user_joined` system message, push the cached video state to the new
client, broadcast the user list.  `pos` is where the (fresh) key lands in
the map's iteration order. -/
def handleRegister (s : HubState) (c : Client) (pos : Nat) (now : Nat) :
    HubState × List Effect :=
  let s1 : HubState :=
    if (s.clients.any fun cm => cm.1.id = c.id) then s
    else { s with clients := insertAt pos (c, freshMailbox) s.clients }
  let r2 := broadcastSystemMessage s1 "user_joined" c.UserID c.Username now
  let r3 := pushVideoState r2.1 c
  let r4 := broadcastUserList r3.1 now
  (r4.1, Effect.log "ws: client connected" :: (r2.2 ++ r3.2 ++ r4.2))

/-- The `case client := <-h.Unregister` arm of `Hub.Run`: if the client is
in the map, delete it, close its `Send` channel, log, broadcast the
`user_left` system message and the updated user list; otherwise do
nothing. -/
def handleUnregister (s : HubState) (c : Client) (now : Nat) : HubState × List Effect :=
  if (s.clients.any fun cm => cm.1.id = c.id) then
    let s1 : HubState := { s with clients := s.clients.filter fun cm => !(cm.1.id = c.id : Bool) }
    let r2 := broadcastSystemMessage s1 "user_left" c.UserID c.Username now
    let r3 := broadcastUserList r2.1 now
    (r3.1, Effect.closeMailbox c.id :: Effect.log "ws: client disconnected" :: (r2.2 ++ r3.2))
  else (s, [])

/-- One event consumed by the `select` in `Hub.Run`.  `register` carries
the map-iteration position of the new key and the `time.Now()` value used
while handling the event; `unregister` carries the `time.Now()` value. -/
inductive Event where
  | register (c : Client) (pos : Nat) (now : Nat)
  | unregister (c : Client) (now : Nat)
  | inbound (raw : Wire)
deriving DecidableEq, Repr

/-- One iteration of the `Hub.Run` event loop. -/
def step (parseTarget : String → Option String) (s : HubState) : Event → HubState × List Effect
  | .register c pos now => handleRegister s c pos now
  | .unregister c now => handleUnregister s c now
  | .inbound raw => routeMessage parseTarget s raw

/-- Run the `Hub.Run` loop over a list of events, accumulating effects in
order. -/
def run (parseTarget : String → Option String) (s : HubState) : List Event → HubState × List Effect
  | [] => (s, [])
  | e :: es =>
    let r := step parseTarget s e
    let r' := run parseTarget r.1 es
    (r'.1, r.2 ++ r'.2)

/-- The messages successfully sent to client `cid`, in order. -/
def sendsTo (effs : List Effect) (cid : Nat) : List Wire :=
  effs.filterMap fun e =>
    match e with
    | .send c w => if c = cid then some w else none
    | _ => none

/-- How many times client `cid`'s channel is closed in an effect trace. -/
def closeCount (effs : List Effect) (cid : Nat) : Nat :=
  effs.countP fun e => decide (e = Effect.closeMailbox cid)

/-- How many register events for pointer identity `cid` a trace holds. -/
def registerCount (es : List Event) (cid : Nat) : Nat :=
  es.countP fun e =>
    match e with
    | .register c _ _ => decide (c.id = cid)
    | _ => false

/-- The claims of `auth.ValidateToken` that `ServeWs` binds into the new
client (`internal/auth/jwt.go`). -/
structure AuthClaims where
  UserID : String
  Username : String
deriving DecidableEq, Repr

/-- Outcome of one `ServeWs` call. -/
inductive ServeWsOutcome where
  | unauthorized (msg : String)
  | upgradeFailed
  | registered (c : Client)
deriving DecidableEq, Repr

/-- `ServeWs` from `internal/ws/client.go`.  `validate` models
`auth.ValidateToken` with the fixed `jwtSecret`; `upgradeOk` models the
outcome of `upgrader.Upgrade`; `tokenStr` is `r.URL.Query().Get("token")`
(the empty string when the parameter is absent); `newId` is the pointer
identity of the freshly allocated `Client`.  The first component records
whether the transport upgrade was attempted; `registered c` means `c` was
sent on `hub.Register` before `ServeWs` returned. -/
def serveWs (validate : String → Option AuthClaims) (upgradeOk : Bool)
    (tokenStr : String) (newId : Nat) : Bool × ServeWsOutcome :=
  if tokenStr = "" then (false, ServeWsOutcome.unauthorized "missing token query parameter")
  else
    match validate tokenStr with
    | none => (false, ServeWsOutcome.unauthorized "invalid or expired token")
    | some cl =>
      if upgradeOk then
        (true, ServeWsOutcome.registered { id := newId, UserID := cl.UserID, Username := cl.Username })
      else (true, ServeWsOutcome.upgradeFailed)

/-! ## Basic facts about the broadcast loop -/

/-- Closed form of the `broadcastToAll` loop: the surviving registry keeps
exactly the non-full mailboxes (each with the message appended), and the
effect trace records, in iteration order, a close for each full mailbox and
a send for each non-full one. -/
theorem broadcastList_eq (w : Wire) (cs : List (Client × Mailbox)) :
    broadcastList w cs =
      ((cs.filter fun cm => !cm.2.full).map fun cm => (cm.1, cm.2.enqueue w),
       cs.map fun cm =>
         if cm.2.full then Effect.closeMailbox cm.1.id else Effect.send cm.1.id w) := by
  induction cs with
  | nil => rfl
  | cons cm rest ih =>
    cases h : cm.2.full <;>
      simp [broadcastList, ih, h, List.filter_cons]

theorem sendsTo_append (l₁ l₂ : List Effect) (cid : Nat) :
    sendsTo (l₁ ++ l₂) cid = sendsTo l₁ cid ++ sendsTo l₂ cid :=
  List.filterMap_append l₁ l₂ _

theorem closeCount_append (l₁ l₂ : List Effect) (cid : Nat) :
    closeCount (l₁ ++ l₂) cid = closeCount l₁ cid + closeCount l₂ cid :=
  List.countP_append _ l₁ l₂

theorem sendsTo_broadcastList (w : Wire) (cs : List (Client × Mailbox)) (cid : Nat) :
    sendsTo (broadcastList w cs).2 cid =
      List.replicate (cs.countP fun cm => decide (cm.1.id = cid) && !cm.2.full) w := by
  induction cs with
  | nil => rfl
  | cons cm rest ih =>
    cases h : cm.2.full
    · by_cases hid : cm.1.id = cid
      · simp [broadcastList, h, sendsTo, List.filterMap_cons, hid, List.countP_cons,
          List.replicate_succ, sendsTo] at ih ⊢
        simpa [Nat.add_comm] using ih
      · simp [broadcastList, h, sendsTo, List.filterMap_cons, hid, List.countP_cons] at ih ⊢
        exact ih
    · simp [broadcastList, h, sendsTo, List.filterMap_cons, List.countP_cons] at ih ⊢
      exact ih

theorem closeCount_broadcastList (w : Wire) (cs : List (Client × Mailbox)) (cid : Nat) :
    closeCount (broadcastList w cs).2 cid =
      cs.countP fun cm => decide (cm.1.id = cid) && cm.2.full := by
  induction cs with
  | nil => rfl
  | cons cm rest ih =>
    cases h : cm.2.full
    · simp [broadcastList, h, closeCount, List.countP_cons] at ih ⊢
      exact ih
    · by_cases hid : cm.1.id = cid
      · simp [broadcastList, h, closeCount, List.countP_cons, hid] at ih ⊢
        exact ih
      · simp [broadcastList, h, closeCount, List.countP_cons, hid] at ih ⊢
        exact ih

theorem keysOf_broadcastList (w : Wire) (cs : List (Client × Mailbox)) :
    keysOf (broadcastList w cs).1 = (cs.filter fun cm => !cm.2.full).map fun cm => cm.1.id := by
  rw [broadcastList_eq]
  simp [keysOf, List.map_map, Function.comp]

theorem keysOf_broadcastList_sublist (w : Wire) (cs : List (Client × Mailbox)) :
    (keysOf (broadcastList w cs).1).Sublist (keysOf cs) := by
  rw [keysOf_broadcastList]
  exact List.Sublist.map _ (List.filter_sublist cs)

theorem mem_keysOf_broadcastList (w : Wire) (cs : List (Client × Mailbox)) (cid : Nat) :
    cid ∈ keysOf (broadcastList w cs).1 ↔
      ∃ cm ∈ cs, cm.1.id = cid ∧ cm.2.full = false := by
  rw [keysOf_broadcastList]
  simp only [List.mem_map, List.mem_filter, Bool.not_eq_true']
  constructor
  · rintro ⟨cm, ⟨hm, hf⟩, hid⟩
    exact ⟨cm, hm, hid, hf⟩
  · rintro ⟨cm, hm, hid, hf⟩
    exact ⟨cm, ⟨hm, hf⟩, hid⟩

theorem closeMailbox_mem_broadcastList (w : Wire) (cs : List (Client × Mailbox)) (cid : Nat) :
    Effect.closeMailbox cid ∈ (broadcastList w cs).2 ↔
      ∃ cm ∈ cs, cm.1.id = cid ∧ cm.2.full = true := by
  rw [broadcastList_eq]
  simp only [List.mem_map]
  constructor
  · rintro ⟨cm, hm, he⟩
    by_cases h : cm.2.full
    · simp [h] at he
      exact ⟨cm, hm, he, h⟩
    · simp [h] at he
  · rintro ⟨cm, hm, hid, hf⟩
    exact ⟨cm, hm, by simp [hf, hid]⟩

theorem countP_and_split {α : Type} (p q : α → Bool) (l : List α) :
    l.countP (fun a => p a && q a) + l.countP (fun a => p a && !q a) = l.countP p := by
  induction l with
  | nil => rfl
  | cons a l ih =>
    cases hp : p a <;> cases hq : q a <;>
      simp [List.countP_cons, hp, hq] <;> omega

theorem countP_id_of_nodup (cs : List (Client × Mailbox)) (hnd : (keysOf cs).Nodup)
    (cid : Nat) (h : cid ∈ keysOf cs) :
    cs.countP (fun cm => decide (cm.1.id = cid)) = 1 := by
  have hc := List.count_eq_one_of_mem hnd h
  rw [List.count_eq_countP] at hc
  simp only [keysOf, List.countP_map] at hc
  rw [← hc]
  apply List.countP_congr
  intro cm _
  simp [Function.comp]

theorem countP_id_of_not_mem (cs : List (Client × Mailbox)) (cid : Nat)
    (h : cid ∉ keysOf cs) :
    cs.countP (fun cm => decide (cm.1.id = cid)) = 0 := by
  rw [List.countP_eq_zero]
  intro cm hm
  simp only [decide_eq_true_eq]
  intro hid
  exact h (by simpa [keysOf, hid] using List.mem_map_of_mem (fun cm => cm.1.id) hm)

/-! ## Facts about unicast delivery (`sendToUser`) -/

theorem closeCount_pos (effs : List Effect) (cid : Nat) :
    0 < closeCount effs cid ↔ Effect.closeMailbox cid ∈ effs := by
  rw [closeCount, List.countP_pos]
  constructor
  · rintro ⟨e, he, hp⟩
    simp only [decide_eq_true_eq] at hp
    rwa [hp] at he
  · intro h
    exact ⟨_, h, by simp⟩

theorem sendToUserList_not_found (u : String) (w : Wire) (cs : List (Client × Mailbox))
    (h : ∀ cm ∈ cs, ¬ cm.1.Username = u) :
    sendToUserList u w cs = (cs, [Effect.log ("ws: target user not found: " ++ u)]) := by
  induction cs with
  | nil => rfl
  | cons cm rest ih =>
    have hcm := h cm (by simp)
    simp only [sendToUserList, if_neg hcm, ih (fun x hx => h x (List.mem_cons_of_mem _ hx))]

theorem sendToUserList_found (u : String) (w : Wire) (cs : List (Client × Mailbox))
    (cm0 : Client × Mailbox)
    (hfind : cs.find? (fun cm => decide (cm.1.Username = u)) = some cm0)
    (hnf : cm0.2.full = false) :
    (sendToUserList u w cs).2 = [Effect.send cm0.1.id w] := by
  induction cs with
  | nil => simp at hfind
  | cons cm rest ih =>
    by_cases hu : cm.1.Username = u
    · rw [List.find?_cons_of_pos _ (by simp [hu])] at hfind
      have : cm = cm0 := by simpa using hfind
      subst this
      simp [sendToUserList, hu, hnf]
    · rw [List.find?_cons_of_neg _ (by simp [hu])] at hfind
      simp only [sendToUserList, if_neg hu]
      exact ih hfind

/-- The per-client membership indicator used for close/eviction
accounting. -/
def memIndL (cs : List (Client × Mailbox)) (cid : Nat) : Nat :=
  if cid ∈ keysOf cs then 1 else 0

/-- Bookkeeping contract of one registry-touching hub primitive: it
preserves distinctness of pointer identities, closes a given client's
mailbox at most as often as that client is present (so at most once), and
any close removes the client from the registry. -/
def StepOkL (cs cs' : List (Client × Mailbox)) (effs : List Effect) : Prop :=
  ((keysOf cs).Nodup → (keysOf cs').Nodup) ∧
  ∀ cid, (keysOf cs).Nodup →
    (closeCount effs cid + memIndL cs' cid ≤ memIndL cs cid) ∧
    (Effect.closeMailbox cid ∈ effs → cid ∈ keysOf cs ∧ cid ∉ keysOf cs')

theorem stepOkL_comp {cs cs1 cs2 : List (Client × Mailbox)} {e1 e2 : List Effect}
    (h1 : StepOkL cs cs1 e1) (h2 : StepOkL cs1 cs2 e2) :
    StepOkL cs cs2 (e1 ++ e2) := by
  refine ⟨fun hnd => h2.1 (h1.1 hnd), fun cid hnd => ?_⟩
  have hnd1 := h1.1 hnd
  obtain ⟨i1, c1⟩ := h1.2 cid hnd
  obtain ⟨i2, c2⟩ := h2.2 cid hnd1
  rw [closeCount_append]
  constructor
  · omega
  · intro hmem
    rcases List.mem_append.mp hmem with hm | hm
    · obtain ⟨hin, hout⟩ := c1 hm
      refine ⟨hin, fun hin2 => ?_⟩
      have h1z : memIndL cs1 cid = 0 := by simp [memIndL, hout]
      have h2z : memIndL cs2 cid = 0 := by omega
      rw [memIndL, if_pos hin2] at h2z
      exact one_ne_zero h2z
    · obtain ⟨hin, hout⟩ := c2 hm
      have hm1 : memIndL cs1 cid = 1 := by simp [memIndL, hin]
      have hm0 : 1 ≤ memIndL cs cid := by omega
      refine ⟨?_, hout⟩
      by_contra hnot
      simp [memIndL, hnot] at hm0

theorem stepOkL_of_keys_eq {cs cs' : List (Client × Mailbox)} {effs : List Effect}
    (hk : keysOf cs' = keysOf cs)
    (hnc : ∀ cid, Effect.closeMailbox cid ∉ effs) :
    StepOkL cs cs' effs := by
  refine ⟨fun hnd => hk ▸ hnd, fun cid hnd => ?_⟩
  have hc : closeCount effs cid = 0 := by
    by_contra h
    exact hnc cid ((closeCount_pos effs cid).mp (Nat.pos_of_ne_zero h))
  exact ⟨by simp [hc, memIndL, hk], fun hm => absurd hm (hnc cid)⟩

theorem stepOkL_cons {cs cs' : List (Client × Mailbox)} {effs : List Effect} {e : Effect}
    (he : ∀ cid, e ≠ Effect.closeMailbox cid)
    (h : StepOkL cs cs' effs) :
    StepOkL cs cs' (e :: effs) := by
  refine ⟨h.1, fun cid hnd => ?_⟩
  obtain ⟨i, c⟩ := h.2 cid hnd
  have hcc : closeCount (e :: effs) cid = closeCount effs cid := by
    simp [closeCount, List.countP_cons, he cid]
  constructor
  · omega
  · intro hm
    rcases List.mem_cons.mp hm with hm | hm
    · exact absurd hm.symm (he cid)
    · exact c hm

theorem stepOkL_broadcastList (w : Wire) (cs : List (Client × Mailbox)) :
    StepOkL cs (broadcastList w cs).1 (broadcastList w cs).2 := by
  constructor
  · intro hnd
    exact List.Nodup.sublist (keysOf_broadcastList_sublist w cs) hnd
  · intro cid hnd
    rw [closeCount_broadcastList]
    by_cases hm : cid ∈ keysOf cs
    · have hsum := countP_and_split (fun cm => decide (cm.1.id = cid)) (fun cm => cm.2.full) cs
      rw [countP_id_of_nodup cs hnd cid hm] at hsum
      constructor
      · by_cases hm' : cid ∈ keysOf (broadcastList w cs).1
        · obtain ⟨cm, hcm, hid, hnf⟩ := (mem_keysOf_broadcastList w cs cid).mp hm'
          have hpos : 0 < cs.countP fun cm => decide (cm.1.id = cid) && !cm.2.full :=
            List.countP_pos.mpr ⟨cm, hcm, by simp [hid, hnf]⟩
          have e1 : memIndL (broadcastList w cs).1 cid = 1 := by simp [memIndL, hm']
          have e2 : memIndL cs cid = 1 := by simp [memIndL, hm]
          omega
        · have e1 : memIndL (broadcastList w cs).1 cid = 0 := by simp [memIndL, hm']
          have e2 : memIndL cs cid = 1 := by simp [memIndL, hm]
          omega
      · intro hcl
        obtain ⟨cm, hcm, hid, hf⟩ := (closeMailbox_mem_broadcastList w cs cid).mp hcl
        refine ⟨hm, fun hm' => ?_⟩
        obtain ⟨cm', hcm', hid', hnf⟩ := (mem_keysOf_broadcastList w cs cid).mp hm'
        have hndm : (cs.map fun cm => cm.1.id).Nodup := hnd
        have hcc : cm = cm' :=
          List.inj_on_of_nodup_map hndm hcm hcm'
            (by show cm.1.id = cm'.1.id; rw [hid, hid'])
        rw [hcc, hnf] at hf
        simp at hf
    · have hz : (cs.countP fun cm => decide (cm.1.id = cid) && cm.2.full) = 0 := by
        have h0 := countP_id_of_not_mem cs cid hm
        have hle := @List.countP_mono_left _
          (fun cm => decide (cm.1.id = cid) && cm.2.full)
          (fun cm => decide (cm.1.id = cid)) cs (fun x _ hx => by
            simp only [Bool.and_eq_true] at hx
            exact hx.1)
        omega
      have hm' : cid ∉ keysOf (broadcastList w cs).1 := fun hx =>
        hm (List.Sublist.mem hx (keysOf_broadcastList_sublist w cs))
      constructor
      · simp [memIndL, hm, hm', hz]
      · intro hcl
        obtain ⟨cm, hcm, hid, hf⟩ := (closeMailbox_mem_broadcastList w cs cid).mp hcl
        exact absurd (by simpa [keysOf, hid] using List.mem_map_of_mem (fun cm => cm.1.id) hcm) hm

/-- Structure of one `sendToUser` scan around the first matching client:
the registry splits as `l1 ++ cm0 :: l2` with no match in `l1`, and the
scan either evicts `cm0` (full mailbox) or appends the message to its
queue, leaving `l1` and `l2` untouched. -/
theorem sendToUserList_split (u : String) (w : Wire) (cs : List (Client × Mailbox))
    (cm0 : Client × Mailbox)
    (hfind : cs.find? (fun cm => decide (cm.1.Username = u)) = some cm0) :
    ∃ l1 l2, cs = l1 ++ cm0 :: l2 ∧ (∀ x ∈ l1, ¬ x.1.Username = u) ∧
      sendToUserList u w cs =
        (if cm0.2.full then (l1 ++ l2, [Effect.closeMailbox cm0.1.id])
         else (l1 ++ (cm0.1, cm0.2.enqueue w) :: l2, [Effect.send cm0.1.id w])) := by
  induction cs with
  | nil => simp at hfind
  | cons cm rest ih =>
    by_cases hu : cm.1.Username = u
    · rw [List.find?_cons_of_pos _ (by simp [hu])] at hfind
      have hcm : cm = cm0 := by simpa using hfind
      subst hcm
      refine ⟨[], rest, rfl, by simp, ?_⟩
      cases hf : cm.2.full <;> simp [sendToUserList, hu, hf]
    · rw [List.find?_cons_of_neg _ (by simp [hu])] at hfind
      obtain ⟨l1, l2, hsplit, hl1, heq⟩ := ih hfind
      refine ⟨cm :: l1, l2, by simp [hsplit], ?_, ?_⟩
      · intro x hx
        rcases List.mem_cons.mp hx with hx | hx
        · rw [hx]; exact hu
        · exact hl1 x hx
      · cases hf : cm0.2.full <;>
          simp only [sendToUserList, if_neg hu, heq, hf, if_true, if_false,
            Bool.false_eq_true, List.cons_append]

theorem stepOkL_sendToUserList (u : String) (w : Wire) (cs : List (Client × Mailbox)) :
    StepOkL cs (sendToUserList u w cs).1 (sendToUserList u w cs).2 := by
  cases hfind : cs.find? (fun cm => decide (cm.1.Username = u)) with
  | none =>
    have hnm : ∀ cm ∈ cs, ¬ cm.1.Username = u := by
      intro cm hcm
      have := List.find?_eq_none.mp hfind cm hcm
      simpa using this
    rw [sendToUserList_not_found u w cs hnm]
    exact stepOkL_of_keys_eq rfl (by intro cid h; simp at h)
  | some cm0 =>
    obtain ⟨l1, l2, hsplit, _, heq⟩ := sendToUserList_split u w cs cm0 hfind
    cases hf : cm0.2.full
    · rw [hf] at heq
      simp only [Bool.false_eq_true, if_false] at heq
      rw [heq]
      apply stepOkL_of_keys_eq
      · rw [hsplit]
        simp [keysOf, List.map_append]
      · intro cid h
        simp at h
    · rw [hf] at heq
      simp only [if_true] at heq
      rw [heq, hsplit]
      constructor
      · intro hnd
        have hsub : (keysOf (l1 ++ l2)).Sublist (keysOf (l1 ++ cm0 :: l2)) := by
          simp only [keysOf, List.map_append]
          exact List.Sublist.append_left (List.sublist_cons_self _ _) _
        exact List.Nodup.sublist hsub hnd
      · intro cid hnd
        have hkeys : keysOf (l1 ++ cm0 :: l2) = keysOf l1 ++ cm0.1.id :: keysOf l2 := by
          simp [keysOf, List.map_append]
        have hndm : (cm0.1.id :: (keysOf l1 ++ keysOf l2)).Nodup := by
          rw [hkeys] at hnd
          exact List.nodup_middle.mp hnd
        have hnmem : cm0.1.id ∉ keysOf l1 ++ keysOf l2 := (List.nodup_cons.mp hndm).1
        have hkeys2 : keysOf (l1 ++ l2) = keysOf l1 ++ keysOf l2 := by
          simp [keysOf, List.map_append]
        by_cases hcid : cm0.1.id = cid
        · subst hcid
          have hccount : closeCount [Effect.closeMailbox cm0.1.id] cm0.1.id = 1 := by
            simp [closeCount, List.countP_cons]
          have hm : cm0.1.id ∈ keysOf (l1 ++ cm0 :: l2) := by
            rw [hkeys]
            exact List.mem_append.mpr (Or.inr (List.mem_cons_self _ _))
          have hm' : cm0.1.id ∉ keysOf (l1 ++ l2) := by rw [hkeys2]; exact hnmem
          refine ⟨?_, fun _ => ⟨hm, hm'⟩⟩
          simp [hccount, memIndL, hm, hm']
        · have hccount : closeCount [Effect.closeMailbox cm0.1.id] cid = 0 := by
            simp [closeCount, List.countP_cons, hcid]
          have hmono : cid ∈ keysOf (l1 ++ l2) → cid ∈ keysOf (l1 ++ cm0 :: l2) := by
            rw [hkeys, hkeys2]
            intro hx
            rcases List.mem_append.mp hx with hx | hx
            · exact List.mem_append.mpr (Or.inl hx)
            · exact List.mem_append.mpr (Or.inr (List.mem_cons_of_mem _ hx))
          constructor
          · by_cases hmm : cid ∈ keysOf (l1 ++ l2)
            · simp [hccount, memIndL, hmm, hmono hmm]
            · simp [hccount, memIndL, hmm]
          · intro hmem
            simp only [List.mem_singleton] at hmem
            exact absurd (by injection hmem.symm) hcid

/-- The video-state push leaves the set of registered pointer identities
unchanged. -/
theorem keysOf_pushVideoState (s : HubState) (c : Client) :
    keysOf (pushVideoState s c).1.clients = keysOf s.clients := by
  unfold pushVideoState
  cases s.lastVideoState with
  | none => rfl
  | some v =>
    cases hfind : s.clients.find? (fun cm => decide (cm.1.id = c.id)) with
    | none => rfl
    | some cm =>
      cases hf : cm.2.full
      · simp only [hf, Bool.false_eq_true, if_false]
        simp only [keysOf, List.map_map]
        apply List.map_congr_left
        intro cm' _
        by_cases hid : cm'.1.id = c.id <;> simp [Function.comp, hid]
      · simp [hf]

theorem pushVideoState_no_close (s : HubState) (c : Client) (cid : Nat) :
    Effect.closeMailbox cid ∉ (pushVideoState s c).2 := by
  unfold pushVideoState
  cases s.lastVideoState with
  | none => simp
  | some v =>
    cases hfind : s.clients.find? (fun cm => decide (cm.1.id = c.id)) with
    | none => simp
    | some cm =>
      cases hf : cm.2.full <;> simp [hf]

theorem stepOkL_pushVideoState (s : HubState) (c : Client) :
    StepOkL s.clients (pushVideoState s c).1.clients (pushVideoState s c).2 :=
  stepOkL_of_keys_eq (keysOf_pushVideoState s c) (pushVideoState_no_close s c)

/-- Inserting into the registry at any position is a permutation of
consing. -/
theorem insertAt_perm (x : Client × Mailbox) :
    ∀ (l : List (Client × Mailbox)) (pos : Nat), (insertAt pos x l).Perm (x :: l) := by
  intro l
  induction l with
  | nil => intro pos; cases pos <;> exact List.Perm.refl _
  | cons y l ih =>
    intro pos
    cases pos with
    | zero => exact List.Perm.refl _
    | succ n =>
      exact List.Perm.trans (List.Perm.cons y (ih n)) (List.Perm.swap x y l)

theorem insertAt_mem (x : Client × Mailbox) (l : List (Client × Mailbox)) (pos : Nat) :
    x ∈ insertAt pos x l :=
  (insertAt_perm x l pos).mem_iff.mpr (List.mem_cons_self x l)

theorem keysOf_insertAt_perm (x : Client × Mailbox) (l : List (Client × Mailbox)) (pos : Nat) :
    (keysOf (insertAt pos x l)).Perm (x.1.id :: keysOf l) := by
  simpa [keysOf] using List.Perm.map (fun cm => cm.1.id) (insertAt_perm x l pos)

theorem sendsTo_cons_log (str : String) (effs : List Effect) (cid : Nat) :
    sendsTo (Effect.log str :: effs) cid = sendsTo effs cid := by
  simp [sendsTo]

theorem sendsTo_cons_close (c : Nat) (effs : List Effect) (cid : Nat) :
    sendsTo (Effect.closeMailbox c :: effs) cid = sendsTo effs cid := by
  simp [sendsTo]

/-- A registered client with a non-full mailbox survives a broadcast: its
mailbox gains the message and its channel is not closed. -/
theorem broadcastList_entry (w : Wire) (cs : List (Client × Mailbox))
    (c : Client) (mb : Mailbox) (hnd : (keysOf cs).Nodup)
    (hmem : (c, mb) ∈ cs) (hnf : mb.full = false) :
    (c, mb.enqueue w) ∈ (broadcastList w cs).1 ∧
      Effect.closeMailbox c.id ∉ (broadcastList w cs).2 := by
  constructor
  · rw [broadcastList_eq]
    exact List.mem_map_of_mem _ (List.mem_filter.mpr ⟨hmem, by simp [hnf]⟩)
  · intro hcl
    obtain ⟨cm, hcm, hid, hf⟩ := (closeMailbox_mem_broadcastList w cs c.id).mp hcl
    have hndm : (cs.map fun cm => cm.1.id).Nodup := hnd
    have : cm = (c, mb) :=
      List.inj_on_of_nodup_map hndm hcm hmem (by show cm.1.id = (c, mb).1.id; exact hid)
    rw [this] at hf
    rw [hnf] at hf
    simp at hf

/-- With distinct pointer identities, `find?` by id returns the unique
registered entry with that id. -/
theorem find?_id_unique (cs : List (Client × Mailbox)) (c : Client) (mb : Mailbox)
    (hnd : (keysOf cs).Nodup) (hmem : (c, mb) ∈ cs) :
    cs.find? (fun cm => decide (cm.1.id = c.id)) = some (c, mb) := by
  cases hfind : cs.find? (fun cm => decide (cm.1.id = c.id)) with
  | none =>
    have := List.find?_eq_none.mp hfind (c, mb) hmem
    simp at this
  | some cm0 =>
    have hm0 := List.mem_of_find?_eq_some hfind
    have hp0 := List.find?_some hfind
    simp only [decide_eq_true_eq] at hp0
    have hndm : (cs.map fun cm => cm.1.id).Nodup := hnd
    have : cm0 = (c, mb) :=
      List.inj_on_of_nodup_map hndm hm0 hmem (by show cm0.1.id = (c, mb).1.id; exact hp0)
    rw [this]

/-- `pushVideoState` when a video state is cached and the target client's
mailbox is below capacity: one send, and the client's queue gains the
cached state. -/
theorem pushVideoState_found_nf (s : HubState) (c : Client) (mb : Mailbox) (v : Wire)
    (hnd : (keysOf s.clients).Nodup) (hmem : (c, mb) ∈ s.clients)
    (hnf : mb.full = false) (hv : s.lastVideoState = some v) :
    (pushVideoState s c).2 = [Effect.send c.id v] ∧
      (c, mb.enqueue v) ∈ (pushVideoState s c).1.clients ∧
      (pushVideoState s c).1.lastVideoState = s.lastVideoState := by
  unfold pushVideoState
  rw [hv, find?_id_unique s.clients c mb hnd hmem]
  dsimp only
  rw [if_neg (by simp [hnf])]
  refine ⟨rfl, ?_, rfl⟩
  refine List.mem_map.mpr ⟨(c, mb), hmem, ?_⟩
  simp

/-- A registered client's mailbox queue grows by at most one during the
video push, and its capacity is unchanged. -/
theorem pushVideoState_entry (s : HubState) (c : Client) (mb : Mailbox)
    (hnd : (keysOf s.clients).Nodup) (hmem : (c, mb) ∈ s.clients) :
    ∃ mb', (c, mb') ∈ (pushVideoState s c).1.clients ∧
      mb'.capacity = mb.capacity ∧ mb'.queue.length ≤ mb.queue.length + 1 := by
  cases hv : s.lastVideoState with
  | none =>
    refine ⟨mb, ?_, rfl, Nat.le_succ _⟩
    unfold pushVideoState
    rw [hv]
    dsimp only
    exact hmem
  | some v =>
    cases hf : mb.full with
    | true =>
      refine ⟨mb, ?_, rfl, Nat.le_succ _⟩
      unfold pushVideoState
      rw [hv, find?_id_unique s.clients c mb hnd hmem]
      dsimp only
      rw [if_pos hf]
      exact hmem
    | false =>
      refine ⟨mb.enqueue v, ?_, rfl, by simp [Mailbox.enqueue]⟩
      unfold pushVideoState
      rw [hv, find?_id_unique s.clients c mb hnd hmem]
      dsimp only
      rw [if_neg (by simp [hf])]
      refine List.mem_map.mpr ⟨(c, mb), hmem, ?_⟩
      simp

/-- With distinct identities, exactly one registry entry matches `c.id`
with a non-full mailbox, when `(c, mb)` is registered and `mb` is below
capacity. -/
theorem countP_id_nf_eq_one (cs : List (Client × Mailbox)) (c : Client) (mb : Mailbox)
    (hnd : (keysOf cs).Nodup) (hmem : (c, mb) ∈ cs) (hnf : mb.full = false) :
    cs.countP (fun cm => decide (cm.1.id = c.id) && !cm.2.full) = 1 := by
  have hk : c.id ∈ keysOf cs := by
    simpa [keysOf] using List.mem_map_of_mem (fun cm => cm.1.id) hmem
  have hone := countP_id_of_nodup cs hnd c.id hk
  have hle := @List.countP_mono_left _
    (fun cm => decide (cm.1.id = c.id) && !cm.2.full)
    (fun cm => decide (cm.1.id = c.id)) cs (fun x _ hx => by
      simp only [Bool.and_eq_true] at hx
      exact hx.1)
  have hpos : 0 < cs.countP fun cm => decide (cm.1.id = c.id) && !cm.2.full :=
    List.countP_pos.mpr ⟨(c, mb), hmem, by simp [hnf]⟩
  omega

/-- The ordinary deregister action (`delete` from the map plus `close` of
the channel) satisfies the close-accounting contract. -/
theorem stepOkL_deleteClose (cs : List (Client × Mailbox)) (c : Client)
    (hmem : c.id ∈ keysOf cs) :
    StepOkL cs (cs.filter fun cm => !(cm.1.id = c.id : Bool)) [Effect.closeMailbox c.id] := by
  constructor
  · intro hnd
    exact List.Nodup.sublist (List.Sublist.map _ (List.filter_sublist cs)) hnd
  · intro cid hnd
    have hnotin : c.id ∉ keysOf (cs.filter fun cm => !(cm.1.id = c.id : Bool)) := by
      intro hx
      simp only [keysOf, List.mem_map] at hx
      obtain ⟨cm, hcm, hid⟩ := hx
      have := (List.mem_filter.mp hcm).2
      rw [hid] at this
      simp at this
    have hsub : (keysOf (cs.filter fun cm => !(cm.1.id = c.id : Bool))).Sublist (keysOf cs) :=
      List.Sublist.map _ (List.filter_sublist cs)
    by_cases hcid : c.id = cid
    · subst hcid
      have hcc : closeCount [Effect.closeMailbox c.id] c.id = 1 := by
        simp [closeCount, List.countP_cons]
      refine ⟨?_, fun _ => ⟨hmem, hnotin⟩⟩
      simp [hcc, memIndL, hmem, hnotin]
    · have hcc : closeCount [Effect.closeMailbox c.id] cid = 0 := by
        simp [closeCount, List.countP_cons, hcid]
      constructor
      · by_cases hmm : cid ∈ keysOf (cs.filter fun cm => !(cm.1.id = c.id : Bool))
        · simp [hcc, memIndL, hmm, List.Sublist.mem hmm hsub]
        · simp [hcc, memIndL, hmm]
      · intro hc
        simp only [List.mem_singleton] at hc
        exact absurd (by injection hc.symm) hcid

theorem lastVideoState_broadcastToAll (s : HubState) (w : Wire) :
    (broadcastToAll s w).1.lastVideoState = s.lastVideoState := rfl

theorem lastVideoState_pushVideoState (s : HubState) (c : Client) :
    (pushVideoState s c).1.lastVideoState = s.lastVideoState := by
  unfold pushVideoState
  cases hv : s.lastVideoState with
  | none => exact hv
  | some v =>
    dsimp only
    cases hfind : s.clients.find? (fun cm => decide (cm.1.id = c.id)) with
    | none => exact hv
    | some cm =>
      dsimp only
      cases hf : cm.2.full with
      | true => simpa using hv
      | false => simp

theorem handleUnregister_not_mem (s : HubState) (c : Client) (now : Nat)
    (h : c.id ∉ keysOf s.clients) :
    handleUnregister s c now = (s, []) := by
  have hany : (s.clients.any fun cm => (decide (cm.1.id = c.id))) = false := by
    rw [Bool.eq_false_iff]
    intro hx
    obtain ⟨cm, hcm, hid⟩ := List.any_eq_true.mp hx
    simp only [decide_eq_true_eq] at hid
    exact h (by simpa [keysOf, hid] using List.mem_map_of_mem (fun cm => cm.1.id) hcm)
  unfold handleUnregister
  rw [if_neg (by simp [hany])]

theorem handleUnregister_mem_eq (s : HubState) (c : Client) (now : Nat)
    (hmem : c.id ∈ keysOf s.clients) :
    handleUnregister s c now =
      ((broadcastUserList
          (broadcastSystemMessage
            { s with clients := s.clients.filter fun cm => !(cm.1.id = c.id : Bool) }
            "user_left" c.UserID c.Username now).1 now).1,
       Effect.closeMailbox c.id :: Effect.log "ws: client disconnected" ::
         ((broadcastSystemMessage
            { s with clients := s.clients.filter fun cm => !(cm.1.id = c.id : Bool) }
            "user_left" c.UserID c.Username now).2 ++
          (broadcastUserList
            (broadcastSystemMessage
              { s with clients := s.clients.filter fun cm => !(cm.1.id = c.id : Bool) }
              "user_left" c.UserID c.Username now).1 now).2)) := by
  have hany : (s.clients.any fun cm => (decide (cm.1.id = c.id))) = true := by
    rw [List.any_eq_true]
    simp only [keysOf, List.mem_map] at hmem
    obtain ⟨cm, hcm, hid⟩ := hmem
    exact ⟨cm, hcm, by simp [hid]⟩
  unfold handleUnregister
  rw [if_pos hany]

theorem stepOkL_handleUnregister (s : HubState) (c : Client) (now : Nat) :
    StepOkL s.clients (handleUnregister s c now).1.clients (handleUnregister s c now).2 := by
  by_cases hmem : c.id ∈ keysOf s.clients
  · rw [handleUnregister_mem_eq s c now hmem]
    have h0 := stepOkL_deleteClose s.clients c hmem
    have h2 := stepOkL_broadcastList
      (Wire.msg (systemMessage "user_left" c.UserID c.Username now))
      (s.clients.filter fun cm => !(cm.1.id = c.id : Bool))
    have hlog : ∀ cid, Effect.log "ws: client disconnected" ≠ Effect.closeMailbox cid := by
      intro cid h
      exact Effect.noConfusion h
    exact stepOkL_comp h0 (stepOkL_cons hlog (stepOkL_comp h2 (stepOkL_broadcastList _ _)))
  · rw [handleUnregister_not_mem s c now hmem]
    exact stepOkL_of_keys_eq rfl (by intro cid h; simp at h)

/-- After a deregister event the client is gone from the registry, whether
or not it was present. -/
theorem handleUnregister_removed (s : HubState) (c : Client) (now : Nat) :
    c.id ∉ keysOf (handleUnregister s c now).1.clients := by
  by_cases hmem : c.id ∈ keysOf s.clients
  · rw [handleUnregister_mem_eq s c now hmem]
    intro hx
    have h1 := List.Sublist.mem hx (keysOf_broadcastList_sublist _ _)
    have h2 := List.Sublist.mem h1 (keysOf_broadcastList_sublist _ _)
    simp only [keysOf, List.mem_map] at h2
    obtain ⟨cm, hcm, hid⟩ := h2
    have := (List.mem_filter.mp hcm).2
    rw [hid] at this
    simp at this
  · rw [handleUnregister_not_mem s c now hmem]
    exact hmem

theorem pushVideoState_none (s : HubState) (c : Client) (hv : s.lastVideoState = none) :
    pushVideoState s c = (s, []) := by
  unfold pushVideoState
  rw [hv]

theorem handleRegister_mem_eq (s : HubState) (c : Client) (pos now : Nat)
    (hmem : c.id ∈ keysOf s.clients) :
    handleRegister s c pos now =
      ((broadcastUserList
          (pushVideoState (broadcastSystemMessage s "user_joined" c.UserID c.Username now).1 c).1 now).1,
       Effect.log "ws: client connected" ::
         ((broadcastSystemMessage s "user_joined" c.UserID c.Username now).2 ++
          (pushVideoState (broadcastSystemMessage s "user_joined" c.UserID c.Username now).1 c).2 ++
          (broadcastUserList
            (pushVideoState (broadcastSystemMessage s "user_joined" c.UserID c.Username now).1 c).1 now).2)) := by
  have hany : (s.clients.any fun cm => (decide (cm.1.id = c.id))) = true := by
    rw [List.any_eq_true]
    simp only [keysOf, List.mem_map] at hmem
    obtain ⟨cm, hcm, hid⟩ := hmem
    exact ⟨cm, hcm, by simp [hid]⟩
  unfold handleRegister
  rw [if_pos hany]

theorem handleRegister_fresh_eq (s : HubState) (c : Client) (pos now : Nat)
    (habs : c.id ∉ keysOf s.clients) :
    handleRegister s c pos now =
      ((broadcastUserList
          (pushVideoState
            (broadcastSystemMessage
              { s with clients := insertAt pos (c, freshMailbox) s.clients }
              "user_joined" c.UserID c.Username now).1 c).1 now).1,
       Effect.log "ws: client connected" ::
         ((broadcastSystemMessage
             { s with clients := insertAt pos (c, freshMailbox) s.clients }
             "user_joined" c.UserID c.Username now).2 ++
          (pushVideoState
            (broadcastSystemMessage
              { s with clients := insertAt pos (c, freshMailbox) s.clients }
              "user_joined" c.UserID c.Username now).1 c).2 ++
          (broadcastUserList
            (pushVideoState
              (broadcastSystemMessage
                { s with clients := insertAt pos (c, freshMailbox) s.clients }
                "user_joined" c.UserID c.Username now).1 c).1 now).2)) := by
  have hany : (s.clients.any fun cm => (decide (cm.1.id = c.id))) = false := by
    rw [Bool.eq_false_iff]
    intro hx
    obtain ⟨cm, hcm, hid⟩ := List.any_eq_true.mp hx
    simp only [decide_eq_true_eq] at hid
    exact habs (by simpa [keysOf, hid] using List.mem_map_of_mem (fun cm => cm.1.id) hcm)
  unfold handleRegister
  rw [if_neg (by simp [hany])]

/-- A freshly registered client (pointer identity not yet in the map) is
never evicted during its own registration event, and — when a video state
is cached — receives exactly the `user_joined` system envelope, then the
cached video state verbatim, then a `user_list` envelope. -/
theorem handleRegister_fresh_facts (s : HubState) (c : Client) (pos now : Nat)
    (hnd : (keysOf s.clients).Nodup) (habs : c.id ∉ keysOf s.clients) :
    Effect.closeMailbox c.id ∉ (handleRegister s c pos now).2 ∧
    ∀ v, s.lastVideoState = some v →
      ∃ m2 : Message, m2.type = MsgTypeUserList ∧
        sendsTo (handleRegister s c pos now).2 c.id =
          [Wire.msg (systemMessage "user_joined" c.UserID c.Username now), v, Wire.msg m2] := by
  rw [handleRegister_fresh_eq s c pos now habs]
  have hmem1 : (c, freshMailbox) ∈ insertAt pos (c, freshMailbox) s.clients :=
    insertAt_mem _ _ _
  have hnd1 : (keysOf (insertAt pos (c, freshMailbox) s.clients)).Nodup :=
    ((keysOf_insertAt_perm (c, freshMailbox) s.clients pos).nodup_iff).mpr
      (List.nodup_cons.mpr ⟨habs, hnd⟩)
  have hfnf : freshMailbox.full = false := by decide
  have hentry2 := broadcastList_entry
    (Wire.msg (systemMessage "user_joined" c.UserID c.Username now))
    (insertAt pos (c, freshMailbox) s.clients) c freshMailbox hnd1 hmem1 hfnf
  have hnd2 : (keysOf (broadcastSystemMessage
      { s with clients := insertAt pos (c, freshMailbox) s.clients }
      "user_joined" c.UserID c.Username now).1.clients).Nodup :=
    (stepOkL_broadcastList _ _).1 hnd1
  have hmem2 : (c, freshMailbox.enqueue
        (Wire.msg (systemMessage "user_joined" c.UserID c.Username now))) ∈
      (broadcastSystemMessage
        { s with clients := insertAt pos (c, freshMailbox) s.clients }
        "user_joined" c.UserID c.Username now).1.clients :=
    hentry2.1
  have hnf2 : (freshMailbox.enqueue
      (Wire.msg (systemMessage "user_joined" c.UserID c.Username now))).full = false := by
    simp [Mailbox.full, Mailbox.enqueue, freshMailbox]
  obtain ⟨mb3, hmem3, hcap3, hlen3⟩ := pushVideoState_entry _ c _ hnd2 hmem2
  have hnd3 : (keysOf (pushVideoState (broadcastSystemMessage
      { s with clients := insertAt pos (c, freshMailbox) s.clients }
      "user_joined" c.UserID c.Username now).1 c).1.clients).Nodup := by
    rw [keysOf_pushVideoState]
    exact hnd2
  have hlen1 : (freshMailbox.enqueue
      (Wire.msg (systemMessage "user_joined" c.UserID c.Username now))).queue.length = 1 := rfl
  rw [hlen1] at hlen3
  have hcap1 : (freshMailbox.enqueue
      (Wire.msg (systemMessage "user_joined" c.UserID c.Username now))).capacity = 256 := rfl
  rw [hcap1] at hcap3
  have hnf3 : mb3.full = false := by
    rw [Mailbox.full, hcap3]
    simp only [decide_eq_false_iff_not]
    omega
  have hentry4 := broadcastList_entry
    (Wire.msg (userListMessage (pushVideoState (broadcastSystemMessage
      { s with clients := insertAt pos (c, freshMailbox) s.clients }
      "user_joined" c.UserID c.Username now).1 c).1.clients now))
    _ c mb3 hnd3 hmem3 hnf3
  constructor
  · intro hx
    rcases List.mem_cons.mp hx with hx | hx
    · exact Effect.noConfusion hx
    rcases List.mem_append.mp hx with hx | hx
    · rcases List.mem_append.mp hx with hx | hx
      · exact hentry2.2 hx
      · exact pushVideoState_no_close _ c c.id hx
    · exact hentry4.2 hx
  · intro v hv
    refine ⟨userListMessage (pushVideoState (broadcastSystemMessage
      { s with clients := insertAt pos (c, freshMailbox) s.clients }
      "user_joined" c.UserID c.Username now).1 c).1.clients now, rfl, ?_⟩
    have hv2 : (broadcastSystemMessage
        { s with clients := insertAt pos (c, freshMailbox) s.clients }
        "user_joined" c.UserID c.Username now).1.lastVideoState = some v := hv
    obtain ⟨hpushE, _hpushM, _⟩ := pushVideoState_found_nf _ c _ v hnd2 hmem2 hnf2 hv2
    have hsends2 : sendsTo (broadcastSystemMessage
        { s with clients := insertAt pos (c, freshMailbox) s.clients }
        "user_joined" c.UserID c.Username now).2 c.id =
        [Wire.msg (systemMessage "user_joined" c.UserID c.Username now)] := by
      have := sendsTo_broadcastList
        (Wire.msg (systemMessage "user_joined" c.UserID c.Username now))
        (insertAt pos (c, freshMailbox) s.clients) c.id
      rw [countP_id_nf_eq_one _ c freshMailbox hnd1 hmem1 hfnf] at this
      simpa using this
    have hsends3 : sendsTo (pushVideoState (broadcastSystemMessage
        { s with clients := insertAt pos (c, freshMailbox) s.clients }
        "user_joined" c.UserID c.Username now).1 c).2 c.id = [v] := by
      rw [hpushE]
      simp [sendsTo]
    have hsends4 : sendsTo (broadcastUserList (pushVideoState (broadcastSystemMessage
        { s with clients := insertAt pos (c, freshMailbox) s.clients }
        "user_joined" c.UserID c.Username now).1 c).1 now).2 c.id =
        [Wire.msg (userListMessage (pushVideoState (broadcastSystemMessage
          { s with clients := insertAt pos (c, freshMailbox) s.clients }
          "user_joined" c.UserID c.Username now).1 c).1.clients now)] := by
      have := sendsTo_broadcastList
        (Wire.msg (userListMessage (pushVideoState (broadcastSystemMessage
          { s with clients := insertAt pos (c, freshMailbox) s.clients }
          "user_joined" c.UserID c.Username now).1 c).1.clients now))
        (pushVideoState (broadcastSystemMessage
          { s with clients := insertAt pos (c, freshMailbox) s.clients }
          "user_joined" c.UserID c.Username now).1 c).1.clients c.id
      rw [countP_id_nf_eq_one _ c mb3 hnd3 hmem3 hnf3] at this
      simpa using this
    rw [sendsTo_cons_log, sendsTo_append, sendsTo_append, hsends2, hsends3, hsends4]
    rfl

theorem stepOkL_routeMessage (pt : String → Option String) (s : HubState) (raw : Wire) :
    StepOkL s.clients (routeMessage pt s raw).1.clients (routeMessage pt s raw).2 := by
  unfold routeMessage
  cases hdec : decodeEnvelope raw with
  | none => exact stepOkL_of_keys_eq rfl (by intro cid h; simp at h)
  | some m =>
    dsimp only
    by_cases h1 : m.type = MsgTypeChat
    · rw [if_pos h1]
      exact stepOkL_broadcastList raw s.clients
    rw [if_neg h1]
    by_cases h2 : m.type = MsgTypeVideoSync
    · rw [if_pos h2]
      exact stepOkL_broadcastList raw s.clients
    rw [if_neg h2]
    by_cases h3 : m.type = MsgTypeWebRTC
    · rw [if_pos h3]
      unfold routeWebRTCMessage
      cases hpt : pt m.payload with
      | none => exact stepOkL_of_keys_eq rfl (by intro cid h; simp at h)
      | some t =>
        dsimp only
        by_cases ht : t = ""
        · rw [if_pos ht]
          exact stepOkL_of_keys_eq rfl (by intro cid h; simp at h)
        · rw [if_neg ht]
          exact stepOkL_sendToUserList t (Wire.msg m) s.clients
    rw [if_neg h3]
    by_cases h4 : m.type = MsgTypeAdmin
    · rw [if_pos h4]
      exact stepOkL_broadcastList raw s.clients
    · rw [if_neg h4]
      exact stepOkL_cons (fun cid h => Effect.noConfusion h) (stepOkL_broadcastList raw s.clients)

theorem memIndL_le_one (cs : List (Client × Mailbox)) (cid : Nat) : memIndL cs cid ≤ 1 := by
  rw [memIndL]
  split <;> omega

theorem registerCount_cons (e : Event) (es : List Event) (cid : Nat) :
    registerCount (e :: es) cid = registerCount [e] cid + registerCount es cid := by
  simp only [registerCount, List.countP_cons, List.countP_nil]
  omega

/-- Registration events (with the at-most-one bonus for the client being
registered) satisfy the close-accounting contract. -/
theorem handleRegister_stepFacts (s : HubState) (c : Client) (pos now : Nat) :
    ((keysOf s.clients).Nodup → (keysOf (handleRegister s c pos now).1.clients).Nodup) ∧
    ∀ cid, (keysOf s.clients).Nodup →
      (closeCount (handleRegister s c pos now).2 cid +
          memIndL (handleRegister s c pos now).1.clients cid ≤
        memIndL s.clients cid + (if c.id = cid then 1 else 0)) ∧
      (Effect.closeMailbox cid ∈ (handleRegister s c pos now).2 →
        (cid ∈ keysOf s.clients ∧ cid ∉ keysOf (handleRegister s c pos now).1.clients)) := by
  by_cases hmem : c.id ∈ keysOf s.clients
  · rw [handleRegister_mem_eq s c pos now hmem]
    have hch : StepOkL s.clients
        (broadcastUserList
          (pushVideoState (broadcastSystemMessage s "user_joined" c.UserID c.Username now).1 c).1 now).1.clients
        (Effect.log "ws: client connected" ::
          ((broadcastSystemMessage s "user_joined" c.UserID c.Username now).2 ++
           (pushVideoState (broadcastSystemMessage s "user_joined" c.UserID c.Username now).1 c).2 ++
           (broadcastUserList
             (pushVideoState (broadcastSystemMessage s "user_joined" c.UserID c.Username now).1 c).1 now).2)) := by
      refine stepOkL_cons (fun cid h => Effect.noConfusion h) ?_
      exact stepOkL_comp
        (stepOkL_comp (stepOkL_broadcastList _ _)
          (stepOkL_pushVideoState (broadcastSystemMessage s "user_joined" c.UserID c.Username now).1 c))
        (stepOkL_broadcastList _ _)
    dsimp only
    refine ⟨hch.1, fun cid hnd => ?_⟩
    obtain ⟨hi, hcl⟩ := hch.2 cid hnd
    refine ⟨?_, hcl⟩
    have hb : (0 : Nat) ≤ if c.id = cid then 1 else 0 := Nat.zero_le _
    omega
  · have heq := handleRegister_fresh_eq s c pos now hmem
    rw [heq]
    have hch : StepOkL (insertAt pos (c, freshMailbox) s.clients)
        (broadcastUserList
          (pushVideoState
            (broadcastSystemMessage
              { s with clients := insertAt pos (c, freshMailbox) s.clients }
              "user_joined" c.UserID c.Username now).1 c).1 now).1.clients
        (Effect.log "ws: client connected" ::
          ((broadcastSystemMessage
              { s with clients := insertAt pos (c, freshMailbox) s.clients }
              "user_joined" c.UserID c.Username now).2 ++
           (pushVideoState
             (broadcastSystemMessage
               { s with clients := insertAt pos (c, freshMailbox) s.clients }
               "user_joined" c.UserID c.Username now).1 c).2 ++
           (broadcastUserList
             (pushVideoState
               (broadcastSystemMessage
                 { s with clients := insertAt pos (c, freshMailbox) s.clients }
                 "user_joined" c.UserID c.Username now).1 c).1 now).2)) := by
      refine stepOkL_cons (fun cid h => Effect.noConfusion h) ?_
      exact stepOkL_comp
        (stepOkL_comp (stepOkL_broadcastList _ _)
          (stepOkL_pushVideoState
            (broadcastSystemMessage
              { s with clients := insertAt pos (c, freshMailbox) s.clients }
              "user_joined" c.UserID c.Username now).1 c))
        (stepOkL_broadcastList _ _)
    dsimp only
    constructor
    · intro hnd
      have hnd1 : (keysOf (insertAt pos (c, freshMailbox) s.clients)).Nodup :=
        ((keysOf_insertAt_perm (c, freshMailbox) s.clients pos).nodup_iff).mpr
          (List.nodup_cons.mpr ⟨hmem, hnd⟩)
      exact hch.1 hnd1
    · intro cid hnd
      have hnd1 : (keysOf (insertAt pos (c, freshMailbox) s.clients)).Nodup :=
        ((keysOf_insertAt_perm (c, freshMailbox) s.clients pos).nodup_iff).mpr
          (List.nodup_cons.mpr ⟨hmem, hnd⟩)
      obtain ⟨hi, hcl⟩ := hch.2 cid hnd1
      have hmm : cid ∈ keysOf (insertAt pos (c, freshMailbox) s.clients) ↔
          cid = c.id ∨ cid ∈ keysOf s.clients := by
        rw [(keysOf_insertAt_perm (c, freshMailbox) s.clients pos).mem_iff]
        simp
      by_cases hc : c.id = cid
      · subst hc
        refine ⟨?_, fun hx => ?_⟩
        · have hm1 : memIndL (insertAt pos (c, freshMailbox) s.clients) c.id ≤ 1 :=
            memIndL_le_one _ _
          have hif : (if c.id = c.id then (1 : Nat) else 0) = 1 := by simp
          rw [hif]
          omega
        · have hnc := (handleRegister_fresh_facts s c pos now hnd hmem).1
          rw [heq] at hnc
          exact absurd hx hnc
      · have hm1 : memIndL (insertAt pos (c, freshMailbox) s.clients) cid =
            memIndL s.clients cid := by
          rw [memIndL, memIndL]
          by_cases hx : cid ∈ keysOf s.clients
          · rw [if_pos (hmm.mpr (Or.inr hx)), if_pos hx]
          · rw [if_neg ?_, if_neg hx]
            intro hy
            rcases hmm.mp hy with hy | hy
            · exact hc hy.symm
            · exact hx hy
        refine ⟨?_, fun hx => ?_⟩
        · rw [if_neg hc]
          omega
        · obtain ⟨hin, hout⟩ := hcl hx
          refine ⟨?_, hout⟩
          rcases hmm.mp hin with hy | hy
          · exact absurd hy.symm hc
          · exact hy

/-- One `Hub.Run` event preserves distinctness of the registry, closes a
given client at most `membership + registrations` many times, and closes
only clients it also removes. -/
theorem step_facts (pt : String → Option String) (s : HubState) (e : Event) :
    ((keysOf s.clients).Nodup → (keysOf (step pt s e).1.clients).Nodup) ∧
    ∀ cid, (keysOf s.clients).Nodup →
      (closeCount (step pt s e).2 cid + memIndL (step pt s e).1.clients cid ≤
        memIndL s.clients cid + registerCount [e] cid) ∧
      (Effect.closeMailbox cid ∈ (step pt s e).2 →
        cid ∈ keysOf s.clients ∧ cid ∉ keysOf (step pt s e).1.clients) := by
  cases e with
  | register c pos now =>
    have h := handleRegister_stepFacts s c pos now
    refine ⟨h.1, fun cid hnd => ?_⟩
    obtain ⟨hi, hcl⟩ := h.2 cid hnd
    have hreg : registerCount [Event.register c pos now] cid = if c.id = cid then 1 else 0 := by
      simp only [registerCount, List.countP_cons, List.countP_nil]
      by_cases hc : c.id = cid <;> simp [hc]
    rw [show step pt s (Event.register c pos now) = handleRegister s c pos now from rfl, hreg]
    exact ⟨hi, hcl⟩
  | unregister c now =>
    have h := stepOkL_handleUnregister s c now
    refine ⟨h.1, fun cid hnd => ?_⟩
    obtain ⟨hi, hcl⟩ := h.2 cid hnd
    have hreg : registerCount [Event.unregister c now] cid = 0 := by
      simp [registerCount, List.countP_cons]
    rw [show step pt s (Event.unregister c now) = handleUnregister s c now from rfl, hreg]
    exact ⟨by omega, hcl⟩
  | inbound raw =>
    have h := stepOkL_routeMessage pt s raw
    refine ⟨h.1, fun cid hnd => ?_⟩
    obtain ⟨hi, hcl⟩ := h.2 cid hnd
    have hreg : registerCount [Event.inbound raw] cid = 0 := by
      simp [registerCount, List.countP_cons]
    rw [show step pt s (Event.inbound raw) = routeMessage pt s raw from rfl, hreg]
    exact ⟨by omega, hcl⟩

/-- Running the hub over any event sequence preserves registry
distinctness and closes each client's channel at most
`initial membership + number of its registrations` many times. -/
theorem run_facts (pt : String → Option String) (es : List Event) :
    ∀ s : HubState,
      ((keysOf s.clients).Nodup → (keysOf (run pt s es).1.clients).Nodup) ∧
      ∀ cid, (keysOf s.clients).Nodup →
        closeCount (run pt s es).2 cid + memIndL (run pt s es).1.clients cid ≤
          memIndL s.clients cid + registerCount es cid := by
  induction es with
  | nil =>
    intro s
    refine ⟨fun h => h, fun cid hnd => ?_⟩
    simp [run, closeCount, registerCount]
  | cons e es ih =>
    intro s
    have hstep := step_facts pt s e
    have hih := ih (step pt s e).1
    constructor
    · intro hnd
      exact hih.1 (hstep.1 hnd)
    · intro cid hnd
      have h1 := (hstep.2 cid hnd).1
      have h2 := hih.2 cid (hstep.1 hnd)
      have hrun : run pt s (e :: es) =
          ((run pt (step pt s e).1 es).1, (step pt s e).2 ++ (run pt (step pt s e).1 es).2) := rfl
      rw [hrun, closeCount_append, registerCount_cons]
      dsimp only
      omega

/-! ## Claim theorems -/

/-- C5: an inbound raw byte sequence that fails to decode as an envelope is
dropped with only a log line: the hub delivers nothing to any connection,
and both the registry and the cached video state are unchanged; the failure
is never surfaced to any peer. -/
theorem C5_decode_failure_drops (pt : String → Option String) (s : HubState) (raw : Wire)
    (hdec : decodeEnvelope raw = none) :
    routeMessage pt s raw = (s, [Effect.log "ws: invalid message format"]) ∧
    ∀ cid, sendsTo (routeMessage pt s raw).2 cid = [] := by
  have h : routeMessage pt s raw = (s, [Effect.log "ws: invalid message format"]) := by
    unfold routeMessage
    rw [hdec]
  refine ⟨h, fun cid => ?_⟩
  rw [h]
  simp [sendsTo]

/-- C5 witness: a concrete malformed frame is dropped with state intact. -/
theorem C5_decode_failure_drops_witness :
    routeMessage (fun _ => none) initialHub (Wire.malformed 0) =
      (initialHub, [Effect.log "ws: invalid message format"]) ∧
    ∀ cid, sendsTo (routeMessage (fun _ => none) initialHub (Wire.malformed 0)).2 cid = [] :=
  C5_decode_failure_drops (fun _ => none) initialHub (Wire.malformed 0) rfl

/-- C2: a chat or admin envelope broadcast while the registered connections
all have mailbox room is enqueued verbatim (appended to the outbound queue)
on exactly the registered connections — the sender's own connection
included, as it is not special-cased — and the cached video state is
untouched. -/
theorem C2_chat_admin_broadcast (pt : String → Option String) (s : HubState)
    (raw : Wire) (m : Message)
    (hdec : decodeEnvelope raw = some m)
    (hty : m.type = MsgTypeChat ∨ m.type = MsgTypeAdmin)
    (hfull : ∀ cm ∈ s.clients, cm.2.full = false) :
    (routeMessage pt s raw).1.clients =
        s.clients.map (fun cm => (cm.1, cm.2.enqueue raw)) ∧
    (routeMessage pt s raw).2 = s.clients.map (fun cm => Effect.send cm.1.id raw) ∧
    (routeMessage pt s raw).1.lastVideoState = s.lastVideoState := by
  have hroute : routeMessage pt s raw = broadcastToAll s raw := by
    unfold routeMessage
    rw [hdec]
    dsimp only
    rcases hty with hty | hty
    · rw [if_pos hty]
    · rw [if_neg (by rw [hty]; decide), if_neg (by rw [hty]; decide),
        if_neg (by rw [hty]; decide), if_pos hty]
  rw [hroute]
  have heq := broadcastList_eq raw s.clients
  have hfilter : (s.clients.filter fun cm => !cm.2.full) = s.clients :=
    List.filter_eq_self.mpr (fun cm hm => by rw [hfull cm hm]; rfl)
  refine ⟨?_, ?_, rfl⟩
  · show (broadcastList raw s.clients).1 = _
    rw [heq]
    dsimp only
    rw [hfilter]
  · show (broadcastList raw s.clients).2 = _
    rw [heq]
    dsimp only
    exact List.map_congr_left (fun cm hm => by rw [hfull cm hm]; rfl)

/-- C2 witness: a concrete chat envelope reaches both registered
connections, including the sender. -/
theorem C2_chat_admin_broadcast_witness :
    (routeMessage (fun _ => none)
      { clients := [(⟨1, "ua", "alice"⟩, freshMailbox), (⟨2, "ub", "bob"⟩, freshMailbox)],
        lastVideoState := none }
      (Wire.msg ⟨"chat", "alice", "hi", 3⟩)).1.clients =
        ([(⟨1, "ua", "alice"⟩, freshMailbox), (⟨2, "ub", "bob"⟩, freshMailbox)] :
            List (Client × Mailbox)).map
          (fun cm => (cm.1, cm.2.enqueue (Wire.msg ⟨"chat", "alice", "hi", 3⟩))) ∧
    (routeMessage (fun _ => none)
      { clients := [(⟨1, "ua", "alice"⟩, freshMailbox), (⟨2, "ub", "bob"⟩, freshMailbox)],
        lastVideoState := none }
      (Wire.msg ⟨"chat", "alice", "hi", 3⟩)).2 =
        ([(⟨1, "ua", "alice"⟩, freshMailbox), (⟨2, "ub", "bob"⟩, freshMailbox)] :
            List (Client × Mailbox)).map
          (fun cm => Effect.send cm.1.id (Wire.msg ⟨"chat", "alice", "hi", 3⟩)) ∧
    (routeMessage (fun _ => none)
      { clients := [(⟨1, "ua", "alice"⟩, freshMailbox), (⟨2, "ub", "bob"⟩, freshMailbox)],
        lastVideoState := none }
      (Wire.msg ⟨"chat", "alice", "hi", 3⟩)).1.lastVideoState = none :=
  C2_chat_admin_broadcast (fun _ => none)
    { clients := [(⟨1, "ua", "alice"⟩, freshMailbox), (⟨2, "ub", "bob"⟩, freshMailbox)],
      lastVideoState := none }
    (Wire.msg ⟨"chat", "alice", "hi", 3⟩) ⟨"chat", "alice", "hi", 3⟩
    rfl (Or.inl rfl) (by decide)

/-- Whether an effect is a successful channel send. -/
def isSend : Effect → Bool
  | .send _ _ => true
  | _ => false

/-- C10: unicast delivery (`sendToUser`) enqueues the envelope on at most
one connection, and any send it performs carries the routed message and
targets exactly the first username match in the registry's iteration
order — even when several registered connections share the target display
name. -/
theorem C10_unicast_first_match (s : HubState) (u : String) (w : Wire) :
    ((sendToUser s u w).2.countP isSend) ≤ 1 ∧
    ∀ cid v, Effect.send cid v ∈ (sendToUser s u w).2 →
      v = w ∧
      (s.clients.find? (fun cm => decide (cm.1.Username = u))).map (fun cm => cm.1.id) =
        some cid := by
  cases hfind : s.clients.find? (fun cm => decide (cm.1.Username = u)) with
  | none =>
    have hnm : ∀ cm ∈ s.clients, ¬ cm.1.Username = u := by
      intro cm hcm
      have := List.find?_eq_none.mp hfind cm hcm
      simpa using this
    have heq : (sendToUser s u w).2 = [Effect.log ("ws: target user not found: " ++ u)] := by
      show (sendToUserList u w s.clients).2 = _
      rw [sendToUserList_not_found u w s.clients hnm]
    rw [heq]
    exact ⟨by simp [isSend], fun cid v hv => by simp at hv⟩
  | some cm0 =>
    obtain ⟨l1, l2, _, _, heq⟩ := sendToUserList_split u w s.clients cm0 hfind
    cases hf : cm0.2.full
    · rw [hf] at heq
      simp only [Bool.false_eq_true, if_false] at heq
      have heff : (sendToUser s u w).2 = [Effect.send cm0.1.id w] := by
        show (sendToUserList u w s.clients).2 = _
        rw [heq]
      rw [heff]
      refine ⟨by simp [isSend], fun cid v hv => ?_⟩
      simp only [List.mem_singleton] at hv
      injection hv with h1 h2
      subst h1
      subst h2
      exact ⟨rfl, by simp [hfind]⟩
    · rw [hf] at heq
      simp only [if_true] at heq
      have heff : (sendToUser s u w).2 = [Effect.closeMailbox cm0.1.id] := by
        show (sendToUserList u w s.clients).2 = _
        rw [heq]
      rw [heff]
      exact ⟨by simp [isSend], fun cid v hv => by simp at hv⟩

/-- C10 witness: with two registered connections sharing the display name
"bob", a unicast delivers to the first one only. -/
theorem C10_unicast_first_match_witness :
    ((sendToUser
        { clients := [(⟨1, "u1", "bob"⟩, freshMailbox), (⟨2, "u2", "bob"⟩, freshMailbox)],
          lastVideoState := none } "bob" (Wire.malformed 9)).2.countP isSend) ≤ 1 ∧
    (Wire.malformed 9 = Wire.malformed 9 ∧
      (([(⟨1, "u1", "bob"⟩, freshMailbox), (⟨2, "u2", "bob"⟩, freshMailbox)] :
          List (Client × Mailbox)).find?
        (fun cm => decide (cm.1.Username = "bob"))).map (fun cm => cm.1.id) = some 1) :=
  ⟨(C10_unicast_first_match
      { clients := [(⟨1, "u1", "bob"⟩, freshMailbox), (⟨2, "u2", "bob"⟩, freshMailbox)],
        lastVideoState := none } "bob" (Wire.malformed 9)).1,
   (C10_unicast_first_match
      { clients := [(⟨1, "u1", "bob"⟩, freshMailbox), (⟨2, "u2", "bob"⟩, freshMailbox)],
        lastVideoState := none } "bob" (Wire.malformed 9)).2 1 (Wire.malformed 9) (by decide)⟩

/-- C6: during any broadcast, each registered connection whose mailbox is
at capacity is closed and removed from the registry, while every other
registered connection receives the message appended to its mailbox and
stays registered. -/
theorem C6_backpressure_eviction (s : HubState) (w : Wire)
    (hnd : (keysOf s.clients).Nodup) :
    ∀ cm ∈ s.clients,
      (cm.2.full = true →
        Effect.closeMailbox cm.1.id ∈ (broadcastToAll s w).2 ∧
        cm.1.id ∉ keysOf (broadcastToAll s w).1.clients) ∧
      (cm.2.full = false →
        (cm.1, cm.2.enqueue w) ∈ (broadcastToAll s w).1.clients ∧
        Effect.send cm.1.id w ∈ (broadcastToAll s w).2) := by
  intro cm hcm
  constructor
  · intro hf
    constructor
    · exact (closeMailbox_mem_broadcastList w s.clients cm.1.id).mpr ⟨cm, hcm, rfl, hf⟩
    · intro hx
      obtain ⟨cm', hcm', hid', hnf⟩ := (mem_keysOf_broadcastList w s.clients cm.1.id).mp hx
      have hndm : (s.clients.map fun cm => cm.1.id).Nodup := hnd
      have : cm' = cm :=
        List.inj_on_of_nodup_map hndm hcm' hcm (by show cm'.1.id = cm.1.id; exact hid')
      rw [this, hf] at hnf
      simp at hnf
  · intro hf
    refine ⟨(broadcastList_entry w s.clients cm.1 cm.2 hnd (by simpa using hcm) hf).1, ?_⟩
    show Effect.send cm.1.id w ∈ (broadcastList w s.clients).2
    rw [broadcastList_eq]
    exact List.mem_map.mpr ⟨cm, hcm, by simp [hf]⟩

set_option maxRecDepth 8192 in
/-- C6 witness: broadcasting over a registry with one saturated and one
roomy mailbox evicts the former and delivers to the latter. -/
theorem C6_backpressure_eviction_witness :
    (Effect.closeMailbox 1 ∈ (broadcastToAll
        { clients := [(⟨1, "u", "a"⟩,
            { queue := List.replicate 256 (Wire.malformed 0), capacity := 256 }),
            (⟨2, "v", "b"⟩, freshMailbox)],
          lastVideoState := none } (Wire.malformed 7)).2 ∧
      1 ∉ keysOf (broadcastToAll
        { clients := [(⟨1, "u", "a"⟩,
            { queue := List.replicate 256 (Wire.malformed 0), capacity := 256 }),
            (⟨2, "v", "b"⟩, freshMailbox)],
          lastVideoState := none } (Wire.malformed 7)).1.clients) ∧
    ((⟨2, "v", "b"⟩, freshMailbox.enqueue (Wire.malformed 7)) ∈ (broadcastToAll
        { clients := [(⟨1, "u", "a"⟩,
            { queue := List.replicate 256 (Wire.malformed 0), capacity := 256 }),
            (⟨2, "v", "b"⟩, freshMailbox)],
          lastVideoState := none } (Wire.malformed 7)).1.clients ∧
      Effect.send 2 (Wire.malformed 7) ∈ (broadcastToAll
        { clients := [(⟨1, "u", "a"⟩,
            { queue := List.replicate 256 (Wire.malformed 0), capacity := 256 }),
            (⟨2, "v", "b"⟩, freshMailbox)],
          lastVideoState := none } (Wire.malformed 7)).2) :=
  ⟨(C6_backpressure_eviction
      { clients := [(⟨1, "u", "a"⟩,
          { queue := List.replicate 256 (Wire.malformed 0), capacity := 256 }),
          (⟨2, "v", "b"⟩, freshMailbox)],
        lastVideoState := none } (Wire.malformed 7) (by decide)
      (⟨1, "u", "a"⟩, { queue := List.replicate 256 (Wire.malformed 0), capacity := 256 })
      (by decide)).1 (by decide),
   (C6_backpressure_eviction
      { clients := [(⟨1, "u", "a"⟩,
          { queue := List.replicate 256 (Wire.malformed 0), capacity := 256 }),
          (⟨2, "v", "b"⟩, freshMailbox)],
        lastVideoState := none } (Wire.malformed 7) (by decide)
      (⟨2, "v", "b"⟩, freshMailbox) (by decide)).2 rfl⟩

/-- C1 counterexample: with a cached video state, a freshly registering
connection receives the `user_joined` system envelope first; the cached
`video_sync` envelope is delivered, but not before any other envelope. -/
theorem C1_counterexample :
    (sendsTo (run (fun _ => none) initialHub
      [Event.inbound (Wire.msg ⟨"video_sync", "a", "p", 0⟩),
       Event.register ⟨1, "uc", "carol"⟩ 0 5]).2 1).head? ≠
        some (Wire.msg ⟨"video_sync", "a", "p", 0⟩) ∧
    Wire.msg ⟨"video_sync", "a", "p", 0⟩ ∈
      sendsTo (run (fun _ => none) initialHub
        [Event.inbound (Wire.msg ⟨"video_sync", "a", "p", 0⟩),
         Event.register ⟨1, "uc", "carol"⟩ 0 5]).2 1 := by
  decide

/-- C1 (amended): processing a `video_sync` envelope replaces the cached
shared state by that exact envelope, and every connection registering
afterwards (while that envelope is cached) receives it verbatim exactly
once during its registration — after the `user_joined` system envelope and
before the `user_list` envelope. -/
theorem C1_video_sync_cache_and_replay
    (pt : String → Option String) (s : HubState) (raw : Wire) (m : Message)
    (hdec : decodeEnvelope raw = some m) (hty : m.type = MsgTypeVideoSync) :
    (routeMessage pt s raw).1.lastVideoState = some raw ∧
    ∀ (s' : HubState) (c : Client) (pos now : Nat),
      (keysOf s'.clients).Nodup →
      c.id ∉ keysOf s'.clients →
      s'.lastVideoState = some raw →
      ∃ m2 : Message, m2.type = MsgTypeUserList ∧
        sendsTo (handleRegister s' c pos now).2 c.id =
          [Wire.msg (systemMessage "user_joined" c.UserID c.Username now), raw, Wire.msg m2] ∧
        (sendsTo (handleRegister s' c pos now).2 c.id).count raw = 1 := by
  constructor
  · unfold routeMessage
    rw [hdec]
    dsimp only
    rw [if_neg (by rw [hty]; decide), if_pos hty]
    rfl
  · intro s' c pos now hnd habs hv
    obtain ⟨m2, hm2, hsends⟩ := (handleRegister_fresh_facts s' c pos now hnd habs).2 raw hv
    have hraw : raw = Wire.msg m := by
      cases raw with
      | msg m' =>
        have : m' = m := by simpa [decodeEnvelope] using hdec
        rw [this]
      | malformed t => simp [decodeEnvelope] at hdec
    have hne1 : raw ≠ Wire.msg (systemMessage "user_joined" c.UserID c.Username now) := by
      rw [hraw]
      intro h
      injection h with h'
      have ht := congrArg Message.type h'
      have hsys : (systemMessage "user_joined" c.UserID c.Username now).type =
          MsgTypeSystem := rfl
      rw [hty, hsys] at ht
      exact absurd ht (by decide)
    have hne2 : raw ≠ Wire.msg m2 := by
      rw [hraw]
      intro h
      injection h with h'
      have ht := congrArg Message.type h'
      rw [hty, hm2] at ht
      exact absurd ht (by decide)
    refine ⟨m2, hm2, hsends, ?_⟩
    rw [hsends]
    simp [List.count_cons, hne1, hne2]

/-- C1 witness: the cache update and the replay sequence at a concrete
cached envelope and a concrete fresh connection. -/
theorem C1_video_sync_cache_and_replay_witness :
    (routeMessage (fun _ => none) initialHub (Wire.msg ⟨"video_sync", "a", "p", 0⟩)).1.lastVideoState =
        some (Wire.msg ⟨"video_sync", "a", "p", 0⟩) ∧
    (∃ m2 : Message, m2.type = MsgTypeUserList ∧
      sendsTo (handleRegister
          { clients := [], lastVideoState := some (Wire.msg ⟨"video_sync", "a", "p", 0⟩) }
          ⟨1, "uc", "carol"⟩ 0 5).2 1 =
        [Wire.msg (systemMessage "user_joined" "uc" "carol" 5),
         Wire.msg ⟨"video_sync", "a", "p", 0⟩, Wire.msg m2] ∧
      (sendsTo (handleRegister
          { clients := [], lastVideoState := some (Wire.msg ⟨"video_sync", "a", "p", 0⟩) }
          ⟨1, "uc", "carol"⟩ 0 5).2 1).count (Wire.msg ⟨"video_sync", "a", "p", 0⟩) = 1) :=
  ⟨(C1_video_sync_cache_and_replay (fun _ => none) initialHub
      (Wire.msg ⟨"video_sync", "a", "p", 0⟩) ⟨"video_sync", "a", "p", 0⟩ rfl rfl).1,
   (C1_video_sync_cache_and_replay (fun _ => none) initialHub
      (Wire.msg ⟨"video_sync", "a", "p", 0⟩) ⟨"video_sync", "a", "p", 0⟩ rfl rfl).2
     { clients := [], lastVideoState := some (Wire.msg ⟨"video_sync", "a", "p", 0⟩) }
     ⟨1, "uc", "carol"⟩ 0 5 (by simp [keysOf]) (by simp [keysOf]) rfl⟩

/-- C3: over any event sequence from the fresh hub the registry holds each
connection at most once; deregistering an absent connection does nothing;
deregistering twice in a row equals deregistering once (same final state
and same effect trace, so one presence-left broadcast); and a present
connection's deregistration closes its mailbox exactly once. -/
theorem C3_registry_set_semantics :
    (∀ (pt : String → Option String) (es : List Event),
        (keysOf (run pt initialHub es).1.clients).Nodup) ∧
    (∀ (s : HubState) (c : Client) (now : Nat),
        c.id ∉ keysOf s.clients → handleUnregister s c now = (s, [])) ∧
    (∀ (pt : String → Option String) (s : HubState) (c : Client) (t1 t2 : Nat),
        run pt s [Event.unregister c t1, Event.unregister c t2] =
          run pt s [Event.unregister c t1]) ∧
    (∀ (s : HubState) (c : Client) (now : Nat),
        (keysOf s.clients).Nodup → c.id ∈ keysOf s.clients →
        closeCount (handleUnregister s c now).2 c.id = 1) := by
  refine ⟨?_, ?_, ?_, ?_⟩
  · intro pt es
    exact (run_facts pt es initialHub).1 (by simp [keysOf, initialHub])
  · intro s c now h
    exact handleUnregister_not_mem s c now h
  · intro pt s c t1 t2
    have h2 := handleUnregister_not_mem (handleUnregister s c t1).1 c t2
      (handleUnregister_removed s c t1)
    simp [run, step, h2]
  · intro s c now hnd hmem
    have hle : closeCount (handleUnregister s c now).2 c.id ≤ 1 := by
      have hi := ((stepOkL_handleUnregister s c now).2 c.id hnd).1
      have hm : memIndL s.clients c.id = 1 := by simp [memIndL, hmem]
      omega
    have hpos : 0 < closeCount (handleUnregister s c now).2 c.id := by
      rw [closeCount_pos]
      rw [handleUnregister_mem_eq s c now hmem]
      exact List.mem_cons_self _ _
    omega

/-- C3 witness: the four registry-set properties at concrete inputs. -/
theorem C3_registry_set_semantics_witness :
    (keysOf (run (fun _ => none) initialHub
        [Event.register ⟨1, "u", "a"⟩ 0 0]).1.clients).Nodup ∧
    handleUnregister initialHub ⟨1, "u", "a"⟩ 0 = (initialHub, []) ∧
    run (fun _ => none) { clients := [(⟨1, "u", "a"⟩, freshMailbox)], lastVideoState := none }
        [Event.unregister ⟨1, "u", "a"⟩ 1, Event.unregister ⟨1, "u", "a"⟩ 2] =
      run (fun _ => none) { clients := [(⟨1, "u", "a"⟩, freshMailbox)], lastVideoState := none }
        [Event.unregister ⟨1, "u", "a"⟩ 1] ∧
    closeCount (handleUnregister
        { clients := [(⟨1, "u", "a"⟩, freshMailbox)], lastVideoState := none }
        ⟨1, "u", "a"⟩ 3).2 1 = 1 :=
  ⟨C3_registry_set_semantics.1 (fun _ => none) [Event.register ⟨1, "u", "a"⟩ 0 0],
   C3_registry_set_semantics.2.1 initialHub ⟨1, "u", "a"⟩ 0 (by simp [keysOf, initialHub]),
   C3_registry_set_semantics.2.2.1 (fun _ => none)
     { clients := [(⟨1, "u", "a"⟩, freshMailbox)], lastVideoState := none } ⟨1, "u", "a"⟩ 1 2,
   C3_registry_set_semantics.2.2.2
     { clients := [(⟨1, "u", "a"⟩, freshMailbox)], lastVideoState := none }
     ⟨1, "u", "a"⟩ 3 (by decide) (by decide)⟩

set_option maxRecDepth 8192 in
/-- C4 counterexample: the target "bob" is the display name of a currently
registered connection, yet — its mailbox being at capacity — bob receives
nothing and is evicted, so "exactly that one Connection receives the
envelope" fails as stated. -/
theorem C4_counterexample :
    (routeMessage (fun _ => some "bob")
        { clients := [(⟨1, "ub", "bob"⟩,
            { queue := List.replicate 256 (Wire.malformed 0), capacity := 256 })],
          lastVideoState := none }
        (Wire.msg ⟨"webrtc", "alice", "x", 0⟩)).2 = [Effect.closeMailbox 1] ∧
    sendsTo (routeMessage (fun _ => some "bob")
        { clients := [(⟨1, "ub", "bob"⟩,
            { queue := List.replicate 256 (Wire.malformed 0), capacity := 256 })],
          lastVideoState := none }
        (Wire.msg ⟨"webrtc", "alice", "x", 0⟩)).2 1 = [] := by
  decide

/-- C4 (amended): a `webrtc` envelope with an unparsable or blank target
is dropped with a log line only; with a target matching no registered
display name it is dropped silently (a log line, no delivery, no error to
the sender); with a matching target whose mailbox is below capacity, the
first matching connection in iteration order receives exactly the
re-marshalled envelope and nothing else is delivered (a matching target at
capacity is evicted and receives nothing). -/
theorem C4_webrtc_routing (pt : String → Option String) (s : HubState)
    (raw : Wire) (m : Message)
    (hdec : decodeEnvelope raw = some m) (hty : m.type = MsgTypeWebRTC) :
    (pt m.payload = none →
      routeMessage pt s raw = (s, [Effect.log "ws: webrtc message missing target"])) ∧
    (pt m.payload = some "" →
      routeMessage pt s raw = (s, [Effect.log "ws: webrtc message has empty target"])) ∧
    (∀ t, pt m.payload = some t → t ≠ "" →
      (∀ cm ∈ s.clients, ¬ cm.1.Username = t) →
      routeMessage pt s raw = (s, [Effect.log ("ws: target user not found: " ++ t)])) ∧
    (∀ t cm0, pt m.payload = some t → t ≠ "" →
      s.clients.find? (fun cm => decide (cm.1.Username = t)) = some cm0 →
      cm0.2.full = false →
      (routeMessage pt s raw).2 = [Effect.send cm0.1.id (Wire.msg m)]) := by
  have hroute : routeMessage pt s raw = routeWebRTCMessage pt s m := by
    unfold routeMessage
    rw [hdec]
    dsimp only
    rw [if_neg (by rw [hty]; decide), if_neg (by rw [hty]; decide), if_pos hty]
  refine ⟨?_, ?_, ?_, ?_⟩
  · intro hpt
    rw [hroute]
    unfold routeWebRTCMessage
    rw [hpt]
  · intro hpt
    rw [hroute]
    unfold routeWebRTCMessage
    rw [hpt]
    dsimp only
    rw [if_pos rfl]
  · intro t hpt ht hnm
    rw [hroute]
    unfold routeWebRTCMessage
    rw [hpt]
    dsimp only
    rw [if_neg ht]
    show sendToUser s t (Wire.msg m) = _
    unfold sendToUser
    rw [sendToUserList_not_found t (Wire.msg m) s.clients hnm]
  · intro t cm0 hpt ht hfind hnf
    rw [hroute]
    unfold routeWebRTCMessage
    rw [hpt]
    dsimp only
    rw [if_neg ht]
    show (sendToUser s t (Wire.msg m)).2 = _
    show (sendToUserList t (Wire.msg m) s.clients).2 = _
    exact sendToUserList_found t (Wire.msg m) s.clients cm0 hfind hnf

/-- C4 witness: unicast delivery to a registered "bob" with mailbox room,
and silent drop when the target "carol" matches nobody. -/
theorem C4_webrtc_routing_witness :
    (routeMessage (fun _ => some "bob")
        { clients := [(⟨1, "ub", "bob"⟩, freshMailbox)], lastVideoState := none }
        (Wire.msg ⟨"webrtc", "alice", "x", 0⟩)).2 =
      [Effect.send 1 (Wire.msg ⟨"webrtc", "alice", "x", 0⟩)] ∧
    routeMessage (fun _ => some "carol")
        { clients := [(⟨1, "ub", "bob"⟩, freshMailbox)], lastVideoState := none }
        (Wire.msg ⟨"webrtc", "alice", "x", 0⟩) =
      ({ clients := [(⟨1, "ub", "bob"⟩, freshMailbox)], lastVideoState := none },
       [Effect.log "ws: target user not found: carol"]) :=
  ⟨(C4_webrtc_routing (fun _ => some "bob")
      { clients := [(⟨1, "ub", "bob"⟩, freshMailbox)], lastVideoState := none }
      (Wire.msg ⟨"webrtc", "alice", "x", 0⟩) ⟨"webrtc", "alice", "x", 0⟩ rfl rfl).2.2.2
    "bob" (⟨1, "ub", "bob"⟩, freshMailbox) rfl (by decide) rfl rfl,
   (C4_webrtc_routing (fun _ => some "carol")
      { clients := [(⟨1, "ub", "bob"⟩, freshMailbox)], lastVideoState := none }
      (Wire.msg ⟨"webrtc", "alice", "x", 0⟩) ⟨"webrtc", "alice", "x", 0⟩ rfl rfl).2.2.1
    "carol" rfl (by decide) (by decide)⟩

set_option maxRecDepth 8192 in
/-- C7 counterexample: an inbound chat event — not a deregister event —
closes a saturated connection's mailbox, so the deregister transition is
not the only close site. -/
theorem C7_counterexample :
    (routeMessage (fun _ => none)
        { clients := [(⟨1, "u", "alice"⟩,
            { queue := List.replicate 256 (Wire.malformed 0), capacity := 256 })],
          lastVideoState := none }
        (Wire.msg ⟨"chat", "alice", "hi", 0⟩)).2 = [Effect.closeMailbox 1] := by
  decide

/-- C7 (amended): every mailbox close performed by a hub event targets a
currently registered connection and removes it from the registry in that
same event, and over any run from the fresh hub a connection's mailbox is
closed at most as many times as it registers — so at most once for a
connection that registers once. -/
theorem C7_mailbox_close_accounting :
    (∀ (pt : String → Option String) (s : HubState) (e : Event) (cid : Nat),
        (keysOf s.clients).Nodup →
        Effect.closeMailbox cid ∈ (step pt s e).2 →
        cid ∈ keysOf s.clients ∧ cid ∉ keysOf (step pt s e).1.clients) ∧
    (∀ (pt : String → Option String) (es : List Event) (cid : Nat),
        closeCount (run pt initialHub es).2 cid ≤ registerCount es cid) := by
  constructor
  · intro pt s e cid hnd hmem
    exact ((step_facts pt s e).2 cid hnd).2 hmem
  · intro pt es cid
    have h := (run_facts pt es initialHub).2 cid (by simp [keysOf, initialHub])
    have hm : memIndL initialHub.clients cid = 0 := by
      simp [memIndL, keysOf, initialHub]
    omega

/-- C7 witness: the close performed by a concrete deregister event removes
the client, and a one-registration run closes at most once. -/
theorem C7_mailbox_close_accounting_witness :
    (1 ∈ keysOf ({ clients := [(⟨1, "u", "a"⟩, freshMailbox)], lastVideoState := none } :
        HubState).clients ∧
      1 ∉ keysOf (step (fun _ => none)
        { clients := [(⟨1, "u", "a"⟩, freshMailbox)], lastVideoState := none }
        (Event.unregister ⟨1, "u", "a"⟩ 1)).1.clients) ∧
    closeCount (run (fun _ => none) initialHub
        [Event.register ⟨1, "u", "a"⟩ 0 0]).2 1 ≤
      registerCount [Event.register ⟨1, "u", "a"⟩ 0 0] 1 :=
  ⟨C7_mailbox_close_accounting.1 (fun _ => none)
      { clients := [(⟨1, "u", "a"⟩, freshMailbox)], lastVideoState := none }
      (Event.unregister ⟨1, "u", "a"⟩ 1) 1 (by decide) (by decide),
   C7_mailbox_close_accounting.2 (fun _ => none) [Event.register ⟨1, "u", "a"⟩ 0 0] 1⟩

/-- Inserting into an empty registry lands at the only position,
whatever index the map picks. -/
theorem insertAt_nil (pos : Nat) (x : Client × Mailbox) : insertAt pos x [] = [x] := by
  cases pos <;> rfl

/-- The payloads of the `user_list` envelopes delivered to client `cid`,
in delivery order. -/
def userListPayloadsTo (effs : List Effect) (cid : Nat) : List String :=
  (sendsTo effs cid).filterMap fun w =>
    match w with
    | Wire.msg m => if m.type = MsgTypeUserList then some m.payload else none
    | _ => none

/-- C8 counterexample: when the map's iteration order places "bob" before
"alice" (position 0), the second `user_list` payload is
`["bob","alice"]`, not `["alice","bob"]`. -/
theorem C8_counterexample :
    userListPayloadsTo (run (fun _ => none) initialHub
        [Event.register ⟨1, "ua", "alice"⟩ 0 11, Event.register ⟨2, "ub", "bob"⟩ 0 12]).2 1 =
      [marshalStrings ["alice"], marshalStrings ["bob", "alice"]] ∧
    marshalStrings ["bob", "alice"] ≠ marshalStrings ["alice", "bob"] := by
  decide

/-- C8 (amended): registering "alice" into the empty hub and then "bob"
broadcasts two `user_list` envelopes, with payloads `["alice"]` and then
some permutation of `["alice","bob"]` — the order inside the second array
reflects the map's unspecified iteration order. -/
theorem C8_user_list_broadcasts (pt : String → Option String) (p1 p2 t1 t2 : Nat) :
    ∃ l : List String, l.Perm ["alice", "bob"] ∧
      userListPayloadsTo (run pt initialHub
          [Event.register ⟨1, "ua", "alice"⟩ p1 t1,
           Event.register ⟨2, "ub", "bob"⟩ p2 t2]).2 1 =
        [marshalStrings ["alice"], marshalStrings l] := by
  cases p2 with
  | zero =>
    refine ⟨["bob", "alice"], List.Perm.swap "alice" "bob" [], ?_⟩
    simp [run, step, handleRegister, initialHub, insertAt_nil, insertAt,
      broadcastSystemMessage, broadcastToAll, broadcastList, Mailbox.full, freshMailbox,
      Mailbox.enqueue, pushVideoState, broadcastUserList, userListMessage, sendsTo,
      userListPayloadsTo, systemMessage, keysOf, MsgTypeUserList, MsgTypeSystem]
  | succ n =>
    refine ⟨["alice", "bob"], List.Perm.refl _, ?_⟩
    simp [run, step, handleRegister, initialHub, insertAt_nil, insertAt,
      broadcastSystemMessage, broadcastToAll, broadcastList, Mailbox.full, freshMailbox,
      Mailbox.enqueue, pushVideoState, broadcastUserList, userListMessage, sendsTo,
      userListPayloadsTo, systemMessage, keysOf, MsgTypeUserList, MsgTypeSystem]

/-- C8 witness: the two `user_list` payloads for a concrete pair of map
positions. -/
theorem C8_user_list_broadcasts_witness :
    ∃ l : List String, l.Perm ["alice", "bob"] ∧
      userListPayloadsTo (run (fun _ => none) initialHub
          [Event.register ⟨1, "ua", "alice"⟩ 0 11,
           Event.register ⟨2, "ub", "bob"⟩ 1 12]).2 1 =
        [marshalStrings ["alice"], marshalStrings l] :=
  C8_user_list_broadcasts (fun _ => none) 0 1 11 12

/-- C9 counterexample: a request with a valid credential whose transport
upgrade fails constructs and registers no connection, so "if it is valid,
a Connection ... is handed to the Hub's registration mailbox" fails as
stated. -/
theorem C9_counterexample :
    serveWs (fun t => if t = "tok" then some ⟨"u1", "alice"⟩ else none) false "tok" 7 =
      (true, ServeWsOutcome.upgradeFailed) := by
  decide

/-- C9 (amended): the credential is verified before any upgrade is
attempted — a missing or invalid token yields a 401 with no upgrade and no
connection; a valid token followed by a successful upgrade hands a
connection bound to the verified identity to the hub's registration
mailbox before `ServeWs` returns; a valid token whose upgrade fails
registers nothing. -/
theorem C9_serveWs_auth (validate : String → Option AuthClaims) (upgradeOk : Bool)
    (tokenStr : String) (newId : Nat) :
    (tokenStr = "" →
      serveWs validate upgradeOk tokenStr newId =
        (false, ServeWsOutcome.unauthorized "missing token query parameter")) ∧
    (tokenStr ≠ "" → validate tokenStr = none →
      serveWs validate upgradeOk tokenStr newId =
        (false, ServeWsOutcome.unauthorized "invalid or expired token")) ∧
    (∀ cl, tokenStr ≠ "" → validate tokenStr = some cl → upgradeOk = true →
      serveWs validate upgradeOk tokenStr newId =
        (true, ServeWsOutcome.registered { id := newId, UserID := cl.UserID, Username := cl.Username })) ∧
    (∀ cl, tokenStr ≠ "" → validate tokenStr = some cl → upgradeOk = false →
      serveWs validate upgradeOk tokenStr newId = (true, ServeWsOutcome.upgradeFailed)) := by
  refine ⟨?_, ?_, ?_, ?_⟩
  · intro h
    simp [serveWs, h]
  · intro h hv
    simp [serveWs, h, hv]
  · intro cl h hv hu
    simp [serveWs, h, hv, hu]
  · intro cl h hv hu
    simp [serveWs, h, hv, hu]

/-- C9 witness: all four `ServeWs` outcomes at concrete inputs. -/
theorem C9_serveWs_auth_witness :
    serveWs (fun t => if t = "tok" then some ⟨"u1", "alice"⟩ else none) true "" 7 =
      (false, ServeWsOutcome.unauthorized "missing token query parameter") ∧
    serveWs (fun t => if t = "tok" then some ⟨"u1", "alice"⟩ else none) true "bad" 7 =
      (false, ServeWsOutcome.unauthorized "invalid or expired token") ∧
    serveWs (fun t => if t = "tok" then some ⟨"u1", "alice"⟩ else none) true "tok" 7 =
      (true, ServeWsOutcome.registered ⟨7, "u1", "alice"⟩) ∧
    serveWs (fun t => if t = "tok" then some ⟨"u1", "alice"⟩ else none) false "tok" 7 =
      (true, ServeWsOutcome.upgradeFailed) :=
  ⟨(C9_serveWs_auth (fun t => if t = "tok" then some ⟨"u1", "alice"⟩ else none) true "" 7).1 rfl,
   (C9_serveWs_auth (fun t => if t = "tok" then some ⟨"u1", "alice"⟩ else none) true "bad" 7).2.1
     (by decide) (by decide),
   (C9_serveWs_auth (fun t => if t = "tok" then some ⟨"u1", "alice"⟩ else none) true "tok" 7).2.2.1
     ⟨"u1", "alice"⟩ (by decide) (by decide) rfl,
   (C9_serveWs_auth (fun t => if t = "tok" then some ⟨"u1", "alice"⟩ else none) false "tok" 7).2.2.2
     ⟨"u1", "alice"⟩ (by decide) (by decide) rfl⟩

end Ofenes
